import Mathlib

/-!
Verification development for the Sentinel command-auditing gateway.

The Python sources (`sentinel/command_auditor.py`, `sentinel_server.py`) are
shallowly embedded here.  Strings are modelled as lists of Unicode code points
(`List Nat`).  Python library primitives (`unicodedata.normalize("NFKC", _)`,
`shlex.split`, `urllib.parse.urlparse`, `re` substitutions) are embedded as
executable Lean functions; the Unicode data tables behind NFKC are restricted
to the code points exercised by the theorems below (all other code points are
treated as NFKC-inert, which matches the real tables for every code point that
actually appears in a statement or proof in this file).  Python `str.upper` /
`str.lower` are modelled on the ASCII range, where they act code-point-wise
exactly as in CPython.
-/

namespace Sentinel

/-- Code points of a string literal, the model of a Python `str` value. -/
def pyChars (s : String) : List Nat := s.data.map Char.toNat

/-- Python whitespace for `str` regexes, `str.split()` and `str.strip()`:
code points with `Py_UNICODE_ISSPACE`. -/
def pySpace (c : Nat) : Bool :=
  c = 9 ∨ c = 10 ∨ c = 11 ∨ c = 12 ∨ c = 13 ∨ c = 28 ∨ c = 29 ∨ c = 30 ∨
  c = 31 ∨ c = 32 ∨ c = 0x85 ∨ c = 0xa0 ∨ c = 0x1680 ∨
  (0x2000 ≤ c ∧ c ≤ 0x200a) ∨ c = 0x2028 ∨ c = 0x2029 ∨ c = 0x202f ∨
  c = 0x205f ∨ c = 0x3000

/-- ASCII word characters, the fragment of regex `\w` used by the `\b`
boundaries in the auditor (all configured tool names are ASCII words). -/
def wordChar (c : Nat) : Bool :=
  (97 ≤ c ∧ c ≤ 122) ∨ (65 ≤ c ∧ c ≤ 90) ∨ (48 ≤ c ∧ c ≤ 57) ∨ c = 95

/-- One code point of Python `str.lower`, modelled on the ASCII range. -/
def lowerChar (c : Nat) : Nat := if 65 ≤ c ∧ c ≤ 90 then c + 32 else c

/-- One code point of Python `str.upper`, modelled on the ASCII range. -/
def upperChar (c : Nat) : Nat := if 97 ≤ c ∧ c ≤ 122 then c - 32 else c

/-- Python `str.lower` (ASCII fragment). -/
def pyLower (l : List Nat) : List Nat := l.map lowerChar

/-- Python `str.upper` (ASCII fragment). -/
def pyUpper (l : List Nat) : List Nat := l.map upperChar

/-- Every code point is ASCII (`< 128`). -/
def asciiOnly (l : List Nat) : Bool := l.all (fun c => c < 128)

/-- The properties of a code-point map shared by the ASCII case maps and
used to commute them with the auditing pipeline: whitespace status is
preserved, whitespace (hence CR, LF, space, tab) is fixed, the shell
metacharacters backslash, both quotes and the slash are reflected, ASCII
is preserved, and lowering after mapping equals lowering. -/
def caseMapOK (f : Nat → Nat) : Prop :=
  (∀ c, pySpace (f c) = pySpace c) ∧
  (∀ c, pySpace c = true → f c = c) ∧
  (∀ c, f c = 92 ↔ c = 92) ∧
  (∀ c, f c = 39 ↔ c = 39) ∧
  (∀ c, f c = 34 ↔ c = 34) ∧
  (∀ c, f c = 47 ↔ c = 47) ∧
  (∀ c, c < 128 → f c < 128) ∧
  (∀ c, lowerChar (f c) = lowerChar c)

/-- `l.dropWhile pySpace`, Python left strip. -/
def stripLeft (l : List Nat) : List Nat := l.dropWhile pySpace

/-- Python `str.strip()`. -/
def pyStrip (l : List Nat) : List Nat :=
  ((l.dropWhile pySpace).reverse.dropWhile pySpace).reverse

/-- Python substring containment `pat in s`. -/
def containsSub (pat : List Nat) : List Nat → Bool
  | [] => pat.isEmpty
  | c :: rest => pat.isPrefixOf (c :: rest) || containsSub pat rest

/-! ### NFKC, restricted Unicode tables

Canonical combining classes, decompositions and composition pairs for the
code points this file reasons about; every other code point is NFKC-inert
(class 0, no decomposition, no composition), exactly as in the real tables
for all code points appearing below. -/

/-- Canonical combining class (restricted table): U+0301 has class 230. -/
def ccc (c : Nat) : Nat := if c = 0x301 then 230 else 0

/-- Full (compatibility) decomposition of one code point (restricted table):
U+00E9 decomposes to `e` followed by U+0301. -/
def decompChar (c : Nat) : List Nat := if c = 0xe9 then [101, 0x301] else [c]

/-- Primary canonical composition (restricted table): `e` + U+0301 = U+00E9. -/
def composePair (a b : Nat) : Option Nat :=
  if a = 101 ∧ b = 0x301 then some 0xe9 else none

/-- Stable insertion of a nonstarter into the (already canonically
ordered) sequence: skip over nonstarters of strictly smaller class, stop at
a starter, an equal-or-larger class, or the end.  Inserting each element
right-to-left realises the Canonical Ordering Algorithm (a stable
ascending sort of every maximal nonstarter run). -/
def insertOrdered (c : Nat) : List Nat → List Nat
  | [] => [c]
  | d :: ds =>
    if ccc c = 0 then c :: d :: ds
    else if ccc d ≠ 0 ∧ ccc d < ccc c then d :: insertOrdered c ds
    else c :: d :: ds

/-- Canonical Ordering Algorithm: sort each maximal nonstarter run stably
by combining class. -/
def canonicalOrder : List Nat → List Nat
  | [] => []
  | c :: cs => insertOrdered c (canonicalOrder cs)

/-- Is a combining mark blocked from the last starter by the most recent
pending mark (combining class not smaller than its own)? -/
def blockedFrom (pend : List Nat) (c : Nat) : Bool :=
  match pend.head? with
  | some p => ccc c ≤ ccc p
  | none => false

/-- Canonical Composition Algorithm: walk the ordered sequence keeping the
last starter and the pending (not yet blocked) marks after it. -/
def composeAux : Nat → List Nat → List Nat → List Nat
  | L, pend, [] => L :: pend.reverse
  | L, pend, c :: cs =>
    if ccc c = 0 then
      match (if pend.isEmpty then composePair L c else none) with
      | some LC => composeAux LC [] cs
      | none => (L :: pend.reverse) ++ composeAux c [] cs
    else if blockedFrom pend c then composeAux L (c :: pend) cs
    else
      match composePair L c with
      | some LC => composeAux LC pend cs
      | none => composeAux L (c :: pend) cs

/-- Composition pass over a full sequence (code points before the first
starter cannot combine and are emitted as they stand). -/
def nfkcCompose : List Nat → List Nat
  | [] => []
  | c :: cs => if ccc c = 0 then composeAux c [] cs else c :: nfkcCompose cs

/-- `unicodedata.normalize("NFKC", s)` over the restricted tables:
decompose, reorder canonically, recompose. -/
def pyNFKC (l : List Nat) : List Nat :=
  nfkcCompose (canonicalOrder (l.flatMap decompChar))

/-! ### The normalizer, `CommandAuditor._normalize_command` -/

/-- `normalized.replace("\u200b", "")`: strip zero-width spaces. -/
def removeZWSP (l : List Nat) : List Nat := l.filter (fun c => c ≠ 0x200b)

/-- `re.sub(r"\\\r?\n", "", s)`: join escaped newlines (backslash,
optional CR, LF), as a left-to-right scan.  State 0: nothing pending;
state 1: a backslash pending; state 2: backslash and CR pending. -/
def subContAux : Nat → List Nat → List Nat
  | 0, [] => []
  | 1, [] => [92]
  | _, [] => [92, 13]
  | 0, c :: cs => if c = 92 then subContAux 1 cs else c :: subContAux 0 cs
  | 1, c :: cs =>
    if c = 10 then subContAux 0 cs
    else if c = 13 then subContAux 2 cs
    else if c = 92 then 92 :: subContAux 1 cs
    else 92 :: c :: subContAux 0 cs
  | _, c :: cs =>
    if c = 10 then subContAux 0 cs
    else if c = 92 then 92 :: 13 :: subContAux 1 cs
    else 92 :: 13 :: c :: subContAux 0 cs

/-- The full substitution pass of `re.sub(r"\\\r?\n", "", s)`. -/
def subContinuation (l : List Nat) : List Nat := subContAux 0 l

/-- Length of the leading backslash run. -/
def bsRun : List Nat → Nat
  | 92 :: cs => bsRun cs + 1
  | _ => 0

/-- `re.sub(r"\\+([^\s])", r"\1", s)`: strip backslash runs before a
non-space character, carrying the count of pending backslashes.  A run of
two or more backslashes before whitespace or the end of the string is
collapsed to one backslash (the regex engine backtracks and lets the last
backslash of the run match `[^\s]`); a single such backslash is left
alone; either way one backslash is emitted. -/
def subEscapesAux (k : Nat) : List Nat → List Nat
  | [] => if k = 0 then [] else [92]
  | c :: cs =>
    if c = 92 then subEscapesAux (k + 1) cs
    else if k = 0 then c :: subEscapesAux 0 cs
    else if pySpace c then 92 :: c :: subEscapesAux 0 cs
    else c :: subEscapesAux 0 cs

/-- The full substitution pass of `re.sub(r"\\+([^\s])", r"\1", s)`. -/
def subEscapes (l : List Nat) : List Nat := subEscapesAux 0 l

/-- `re.sub(r"\\+\s+", " ", s)`: collapse backslashes-plus-whitespace to
one space.  `k` counts pending backslashes; `skip` is set while consuming
the matched whitespace run after a replacement. -/
def subBsSpaceAux (k : Nat) (skip : Bool) : List Nat → List Nat
  | [] => List.replicate k 92
  | c :: cs =>
    if skip then
      if pySpace c then subBsSpaceAux 0 true cs
      else if c = 92 then subBsSpaceAux 1 false cs
      else c :: subBsSpaceAux 0 false cs
    else if c = 92 then subBsSpaceAux (k + 1) false cs
    else if pySpace c then
      if k = 0 then c :: subBsSpaceAux 0 false cs
      else 32 :: subBsSpaceAux 0 true cs
    else List.replicate k 92 ++ c :: subBsSpaceAux 0 false cs

/-- The full substitution pass of `re.sub(r"\\+\s+", " ", s)`. -/
def subBsSpace (l : List Nat) : List Nat := subBsSpaceAux 0 false l

/-- `re.sub(r"\s+", " ", s)`: collapse whitespace runs to a single
space (one space is emitted at the head of a run; further run members are
dropped). -/
def collapseWS : List Nat → List Nat
  | [] => []
  | [c] => if pySpace c then [32] else [c]
  | c :: d :: rest =>
    if pySpace c then
      if pySpace d then collapseWS (d :: rest) else 32 :: collapseWS (d :: rest)
    else c :: collapseWS (d :: rest)

/-- `CommandAuditor._normalize_command`: NFKC, zero-width strip, the three
backslash substitutions, whitespace collapse, strip. -/
def normalizeCommand (l : List Nat) : List Nat :=
  pyStrip (collapseWS (subBsSpace (subEscapes (subContinuation
    (removeZWSP (pyNFKC l))))))

/-! ### `shlex.split(command, posix=True)`

POSIX mode with `whitespace_split=True` (what `shlex.split` sets up):
whitespace is `space`, tab, CR, LF; quote characters are `'` and `"`;
the escape character is backslash, honoured inside double quotes only for
`"` and backslash itself.  An unterminated quote or a trailing escape
raises `ValueError`, modelled as `none`. -/

/-- The shlex word-splitting whitespace set `" \t\r\n"`. -/
def shlexWS (c : Nat) : Bool := c = 32 ∨ c = 9 ∨ c = 13 ∨ c = 10

/-- Lexer mode: outside quotes, in single quotes, in double quotes, after an
escape character outside quotes, after an escape character in double
quotes. -/
inductive ShMode
  | norm
  | sq
  | dq
  | escN
  | escD
deriving DecidableEq

/-- The token under construction: `none` when no token has started,
`some` of the reversed code points otherwise (a quote starts an empty
token). -/
def tokOr (tok : Option (List Nat)) : List Nat :=
  match tok with
  | none => []
  | some t => t

/-- The `shlex` state machine. -/
def shAux (mode : ShMode) (tok : Option (List Nat)) :
    List Nat → Option (List (List Nat))
  | [] =>
    match mode with
    | ShMode.norm =>
      match tok with
      | none => some []
      | some t => some [t.reverse]
    | _ => none
  | c :: cs =>
    match mode with
    | ShMode.norm =>
      if shlexWS c then
        match tok with
        | none => shAux ShMode.norm none cs
        | some t => (shAux ShMode.norm none cs).map (fun r => t.reverse :: r)
      else if c = 39 then shAux ShMode.sq (some (tokOr tok)) cs
      else if c = 34 then shAux ShMode.dq (some (tokOr tok)) cs
      else if c = 92 then shAux ShMode.escN (some (tokOr tok)) cs
      else shAux ShMode.norm (some (c :: tokOr tok)) cs
    | ShMode.sq =>
      if c = 39 then shAux ShMode.norm tok cs
      else shAux ShMode.sq (some (c :: tokOr tok)) cs
    | ShMode.dq =>
      if c = 34 then shAux ShMode.norm tok cs
      else if c = 92 then shAux ShMode.escD tok cs
      else shAux ShMode.dq (some (c :: tokOr tok)) cs
    | ShMode.escN => shAux ShMode.norm (some (c :: tokOr tok)) cs
    | ShMode.escD =>
      if c = 34 ∨ c = 92 then shAux ShMode.dq (some (c :: tokOr tok)) cs
      else shAux ShMode.dq (some (c :: 92 :: tokOr tok)) cs

/-- `shlex.split(command, posix=True)`; `none` models `ValueError`. -/
def shlexSplit (l : List Nat) : Option (List (List Nat)) :=
  shAux ShMode.norm none l

/-- Python `str.split()` with no argument: split on whitespace runs,
dropping empty fields (`cur` carries the reversed word under
construction). -/
def pySplitAux (cur : List Nat) : List Nat → List (List Nat)
  | [] => if cur.isEmpty then [] else [cur.reverse]
  | c :: cs =>
    if pySpace c then
      if cur.isEmpty then pySplitAux [] cs
      else cur.reverse :: pySplitAux [] cs
    else pySplitAux (c :: cur) cs

/-- Python `str.split()`. -/
def pySplit (l : List Nat) : List (List Nat) := pySplitAux [] l

/-- The token lists used by `_match_blocked_tool` and
`_is_allowed_in_lockdown`: POSIX split with a whitespace-split fallback when
shlex raises. -/
def tokensOf (l : List Nat) : List (List Nat) :=
  match shlexSplit l with
  | some toks => toks
  | none => pySplit l

/-- `token.rsplit("/", 1)[-1]`: basename after the last slash. -/
def basenameOf (t : List Nat) : List Nat :=
  (t.reverse.takeWhile (fun c => c ≠ 47)).reverse

/-! ### Word-boundary search, `re.search(rf"\b{re.escape(tool)}\b", s)`

Modelled for patterns whose first and last characters are word characters
(true of every network tool name exercised here). -/

/-- No word character may sit on the left flank. -/
def boundaryL (prev : Option Nat) : Bool :=
  match prev with
  | none => true
  | some p => ¬wordChar p

/-- No word character may sit on the right flank. -/
def boundaryR (rest : List Nat) : Bool :=
  match rest with
  | [] => true
  | r :: _ => ¬wordChar r

/-- Whole-word containment scan. -/
def containsWordAux (w : List Nat) (prev : Option Nat) : List Nat → Bool
  | [] => false
  | c :: rest =>
    (boundaryL prev && w.isPrefixOf (c :: rest) &&
      boundaryR ((c :: rest).drop w.length)) ||
    containsWordAux w (some c) rest

/-- `re.search(rf"\b{re.escape(w)}\b", s) is not None`. -/
def containsWord (w s : List Nat) : Bool := containsWordAux w none s

/-! ### Base64-to-shell detection, `_contains_base64_shell_exec` -/

/-- `bash` or `sh` at the head of `rest`, with a `\b` boundary after. -/
def shellWordAt (rest : List Nat) : Bool :=
  ((pyChars ("bash")).isPrefixOf rest && boundaryR (rest.drop 4)) ||
  ((pyChars ("sh")).isPrefixOf rest && boundaryR (rest.drop 2))

/-- `re.search(r"(?:\||&&|;)\s*(?:bash|sh)\b", s) is not None`: a pipe, a
double ampersand or a semicolon, optional whitespace, then a shell word.
A single `&` is not a separator for this regex. -/
def sepShell : List Nat → Bool
  | [] => false
  | c :: cs =>
    (if c = 124 ∨ c = 59 then shellWordAt (cs.dropWhile pySpace)
     else if c = 38 then
       match cs with
       | 38 :: cs2 => shellWordAt (cs2.dropWhile pySpace)
       | _ => false
     else false) ||
    sepShell cs

/-- `_contains_base64_shell_exec(lowered_command)`. -/
def containsBase64ShellExec (lowered : List Nat) : Bool :=
  (containsSub (pyChars ("base64 -d")) lowered ||
    containsSub (pyChars ("base64 --decode")) lowered) &&
  sepShell lowered

/-! ### URL extraction, `_extract_urls` -/

/-- A code point allowed in the body of the regex `https?://[^\s'\"]+`. -/
def urlBodyChar (c : Nat) : Bool := ¬pySpace c ∧ c ≠ 39 ∧ c ≠ 34

/-- Does the string start with `http://` or `https://`? -/
def startsHttp (t : List Nat) : Bool :=
  (pyChars ("http://")).isPrefixOf t || (pyChars ("https://")).isPrefixOf t

/-- A match of `https?://[^\s'\"]+` anchored at the head: the matched text
and the remainder. -/
def urlHere (s : List Nat) : Option (List Nat × List Nat) :=
  if (pyChars ("https://")).isPrefixOf s then
    match s.drop 8 with
    | [] => none
    | x :: xs =>
      if urlBodyChar x then
        some (s.take 8 ++ x :: xs.takeWhile urlBodyChar,
          xs.dropWhile urlBodyChar)
      else none
  else if (pyChars ("http://")).isPrefixOf s then
    match s.drop 7 with
    | [] => none
    | x :: xs =>
      if urlBodyChar x then
        some (s.take 7 ++ x :: xs.takeWhile urlBodyChar,
          xs.dropWhile urlBodyChar)
      else none
  else none

/-- Fuel-indexed scan for `re.findall(r"https?://[^\s'\"]+", s)`:
left-to-right, non-overlapping; a step always consumes at least one code
point, so `s.length` fuel suffices. -/
def regexFindUrlsAux : Nat → List Nat → List (List Nat)
  | 0, _ => []
  | _ + 1, [] => []
  | fuel + 1, c :: cs =>
    match urlHere (c :: cs) with
    | some (m, rest) => m :: regexFindUrlsAux fuel rest
    | none => regexFindUrlsAux fuel cs

/-- `re.findall(r"https?://[^\s'\"]+", s)`. -/
def regexFindUrls (l : List Nat) : List (List Nat) := regexFindUrlsAux l.length l

/-- `CommandAuditor._extract_urls(command)`.  On a shlex `ValueError` the
empty list is returned at once; the regex scan runs only when POSIX
tokenization succeeds and yields no `http(s)://` token. -/
def extractUrls (command : List Nat) : List (List Nat) :=
  match shlexSplit command with
  | none => []
  | some toks =>
    let urls := toks.filter startsHttp
    if urls.isEmpty then regexFindUrls command else urls

/-! ### Hostname extraction, `_extract_domain` via `urllib.parse.urlparse` -/

/-- The netloc of an `http://` or `https://` URL: the text between `//` and
the first `/`, `?` or `#` (every URL reaching `_extract_domain` carries one
of these two schemes). -/
def netlocOf (url : List Nat) : Option (List Nat) :=
  if (pyChars ("https://")).isPrefixOf url then
    some ((url.drop 8).takeWhile (fun c => c ≠ 47 ∧ c ≠ 63 ∧ c ≠ 35))
  else if (pyChars ("http://")).isPrefixOf url then
    some ((url.drop 7).takeWhile (fun c => c ≠ 47 ∧ c ≠ 63 ∧ c ≠ 35))
  else none

/-- `urlsplit` raises `ValueError("Invalid IPv6 URL")` when the netloc has
an unmatched square bracket. -/
def bracketMismatch (netloc : List Nat) : Bool :=
  (netloc.contains 91 && !netloc.contains 93) ||
  (netloc.contains 93 && !netloc.contains 91)

/-- `netloc.rpartition("@")[2]`: the host info after the last `@`. -/
def afterLastAt (netloc : List Nat) : List Nat :=
  (netloc.reverse.takeWhile (fun c => c ≠ 64)).reverse

/-- `_hostinfo` host extraction: the bracketed body up to `]` when a `[` is
present, otherwise everything before the first `:`. -/
def hostOf (hostinfo : List Nat) : List Nat :=
  if hostinfo.contains 91 then
    ((hostinfo.dropWhile (fun c => c ≠ 91)).drop 1).takeWhile (fun c => c ≠ 93)
  else hostinfo.takeWhile (fun c => c ≠ 58)

/-- `CommandAuditor._extract_domain(url)`: `Except.error` models the
uncaught `ValueError` from `urlparse`, `none` models a URL with no
hostname. -/
def extractDomain (url : List Nat) : Except Unit (Option (List Nat)) :=
  match netlocOf url with
  | none => Except.ok none
  | some netloc =>
    if bracketMismatch netloc then Except.error ()
    else
      let hostname := hostOf (afterLastAt netloc)
      if hostname.isEmpty then Except.ok none
      else Except.ok (some (pyLower hostname))

/-! ### The auditor's data model and configuration -/

deriving instance DecidableEq for Except


/-- Modelled from the spec: the Decision value of `sentinel/models.py`
(a file whose source is not in the repository snapshot): an immutable
record `{allowed, risk_score, reason}`. -/
structure AuditDecision where
  allowed : Bool
  risk_score : Nat
  reason : List Nat
deriving DecidableEq

/-- Modelled from the spec: the `AuditDecision.reject(reason, risk_score)`
factory producing the canonical rejection. -/
def AuditDecision.reject (reason : List Nat) (risk : Nat) : AuditDecision :=
  { allowed := false, risk_score := risk, reason := reason }

/-- The frozen `HardKillConfig` dataclass. -/
structure HardKillConfig where
  blocked_strings : List (List Nat)
  blocked_paths : List (List Nat)
  blocked_tools : List (List Nat)
  blocked_network_tools : List (List Nat)
  whitelisted_domains : List (List Nat)
  lockdown_mode : Bool
  allowed_commands : List (List Nat)
deriving DecidableEq

/-! ### The deterministic rules -/

/-- The `blocked_strings` loop: first entry whose lowercase form is a
substring of the lowered command. -/
def blockedStringHit (cfg : HardKillConfig) (lowered : List Nat) :
    Option (List Nat) :=
  cfg.blocked_strings.findSome? (fun b =>
    if containsSub (pyLower b) lowered then some b else none)

/-- The `blocked_paths` loop. -/
def blockedPathHit (cfg : HardKillConfig) (lowered : List Nat) :
    Option (List Nat) :=
  cfg.blocked_paths.findSome? (fun b =>
    if containsSub (pyLower b) lowered then some b else none)

/-- The `python(\d+(\.\d+)*)?` version tail: digits, dot-separated. -/
def versNum : List Nat → Bool
  | [] => false
  | c :: cs => (48 ≤ c ∧ c ≤ 57) && versRest cs
where
  versRest : List Nat → Bool
    | [] => true
    | c :: cs => if 48 ≤ c ∧ c ≤ 57 then versRest cs else c = 46 && versNum cs

/-- `re.fullmatch(r"python(?:\d+(?:\.\d+)*)?", candidate)`. -/
def pythonVersionMatch (candidate : List Nat) : Bool :=
  (pyChars ("python")).isPrefixOf candidate &&
  (candidate.drop 6 = [] || versNum (candidate.drop 6))

/-- `_match_blocked_tool(command)`: first token whose stripped, lowered
basename equals a blocked tool (or is a `python` version variant). -/
def matchBlockedTool (cfg : HardKillConfig) (command : List Nat) :
    Option (List Nat) :=
  (tokensOf command).findSome? (fun token =>
    let candidate := pyLower (pyStrip token)
    if candidate.isEmpty then none
    else
      let base := basenameOf candidate
      cfg.blocked_tools.findSome? (fun bt =>
        let blocked := pyStrip (pyLower bt)
        if base = blocked then some bt
        else if blocked = pyChars ("python") && pythonVersionMatch base then
          some bt
        else none))

/-- `_contains_network_tool(lowered_command)`. -/
def containsNetworkTool (cfg : HardKillConfig) (lowered : List Nat) : Bool :=
  cfg.blocked_network_tools.any (fun tool => containsWord (pyLower tool) lowered)

/-- `_is_whitelisted_domain(domain)`: equality with an entry or a suffix
after a dot boundary. -/
def isWhitelistedDomain (cfg : HardKillConfig) (domain : List Nat) : Bool :=
  cfg.whitelisted_domains.any (fun allowed =>
    let candidate := pyStrip (pyLower allowed)
    domain = candidate || (46 :: candidate).isSuffixOf domain)

/-- The lowered first token of the POSIX split (whitespace fallback). -/
def firstTokenLower (command : List Nat) : List Nat :=
  match tokensOf command with
  | [] => []
  | t :: _ => pyLower t

/-- One iteration of the `_is_allowed_in_lockdown` entry loop: an entry
normalizing to the empty string matches nothing; a phrase entry (with a
space) matches by equality or prefix; a bare entry matches by equality,
`entry + space` prefix, or first-token/basename equality. -/
def allowedEntryMatch (command allowed : List Nat) : Bool :=
  if (pyLower (normalizeCommand allowed)).isEmpty then false
  else
    (if (pyLower (normalizeCommand allowed)).contains 32 then
      pyLower (pyStrip command) = pyLower (normalizeCommand allowed) ||
        (pyLower (normalizeCommand allowed)).isPrefixOf (pyLower (pyStrip command))
     else
      pyLower (pyStrip command) = pyLower (normalizeCommand allowed) ||
        (pyLower (normalizeCommand allowed) ++ [32]).isPrefixOf
          (pyLower (pyStrip command))) ||
    (firstTokenLower command = pyLower (normalizeCommand allowed) ||
      basenameOf (firstTokenLower command) = pyLower (normalizeCommand allowed))

/-- `_is_allowed_in_lockdown(command)`.  Consulted by `audit` regardless of
`lockdown_mode`. -/
def isAllowedInLockdown (cfg : HardKillConfig) (command : List Nat) : Bool :=
  if cfg.allowed_commands.isEmpty then false
  else cfg.allowed_commands.any (allowedEntryMatch command)

/-! ### The hard-kill filter and the auditor -/

/-- The network-gate loop over the extracted URLs. -/
def netLoop (cfg : HardKillConfig) :
    List (List Nat) → Except Unit (Option AuditDecision)
  | [] => Except.ok none
  | url :: rest =>
    match extractDomain url with
    | Except.error e => Except.error e
    | Except.ok none =>
      Except.ok (some (AuditDecision.reject
        (pyChars ("Could not parse domain from network target: ") ++ url) 10))
    | Except.ok (some domain) =>
      if isWhitelistedDomain cfg domain then netLoop cfg rest
      else
        Except.ok (some (AuditDecision.reject
          (pyChars ("Outbound network domain not whitelisted: ") ++ domain) 10))

/-- `CommandAuditor._hard_kill_filter(command)`: the ordered rule chain.
`Except.error` models an uncaught Python exception escaping the filter. -/
def hardKillFilter (cfg : HardKillConfig) (command : List Nat) :
    Except Unit (Option AuditDecision) :=
  if (pyStrip command).isEmpty then
    Except.ok (some (AuditDecision.reject
      (pyChars ("Empty command is rejected under fail-closed policy.")) 10))
  else if cfg.lockdown_mode && !isAllowedInLockdown cfg command then
    Except.ok (some (AuditDecision.reject
      (pyChars ("Lockdown mode active: command not in allowed_commands.")) 10))
  else
    match blockedStringHit cfg (pyLower command) with
    | some b =>
      Except.ok (some (AuditDecision.reject
        (pyChars ("Blocked token detected: ") ++ b) 10))
    | none =>
      match blockedPathHit cfg (pyLower command) with
      | some b =>
        Except.ok (some (AuditDecision.reject
          (pyChars ("Blocked path access detected: ") ++ b) 10))
      | none =>
        match matchBlockedTool cfg command with
        | some t =>
          Except.ok (some (AuditDecision.reject
            (pyChars ("Blocked tool detected: ") ++ t) 10))
        | none =>
          if containsBase64ShellExec (pyLower command) then
            Except.ok (some (AuditDecision.reject
              (pyChars
                ("Obfuscated payload execution pattern detected: base64 to shell."))
              10))
          else if containsNetworkTool cfg (pyLower command) then
            match extractUrls command with
            | [] =>
              Except.ok (some (AuditDecision.reject
                (pyChars ("Network command without explicit URL/domain is rejected."))
                10))
            | url :: rest => netLoop cfg (url :: rest)
          else Except.ok none

/-- `CommandAuditor.audit(command)` with the LLM auditor modelled as an
optional function.  `Except.error` models an uncaught Python exception
escaping `audit`. -/
def auditWith (cfg : HardKillConfig)
    (llm : Option (List Nat → AuditDecision)) (command : List Nat) :
    Except Unit AuditDecision :=
  match hardKillFilter cfg (normalizeCommand command) with
  | Except.error e => Except.error e
  | Except.ok (some d) => Except.ok d
  | Except.ok none =>
    if isAllowedInLockdown cfg (normalizeCommand command) then
      Except.ok (AuditDecision.mk true 0
        (pyChars ("Command explicitly allowed by policy.")))
    else
      match llm with
      | none =>
        Except.ok (AuditDecision.reject
          (pyChars ("LLM auditor unavailable; fail-closed policy applied.")) 9)
      | some f => Except.ok (f (normalizeCommand command))

/-- `audit` with no LLM auditor attached (`llm_auditor=None`). -/
def auditE (cfg : HardKillConfig) (command : List Nat) :
    Except Unit AuditDecision :=
  auditWith cfg none command

/-! ### Constitution loading, `_load_config` and `_as_tuple` -/

/-- A parsed constitution value (the YAML/JSON shapes `_load_config`
handles). -/
inductive PyVal
  | vNone
  | vBool (b : Bool)
  | vStr (s : List Nat)
  | vList (xs : List PyVal)
  | vDict (entries : List (List Nat × PyVal))

/-- `dict.get(key)` on an association list (keys of a Python dict are
unique; the first binding wins). -/
def dGet : List (List Nat × PyVal) → List Nat → Option PyVal
  | [], _ => none
  | (k, v) :: rest, key => if k = key then some v else dGet rest key

/-- Python `str(item)` for the scalar values a constitution sequence can
hold (nested containers never occur in a constitution and are out of the
claims' scope; they are rendered as a placeholder). -/
def pyStr : PyVal → List Nat
  | PyVal.vStr s => s
  | PyVal.vBool true => pyChars ("True")
  | PyVal.vBool false => pyChars ("False")
  | PyVal.vNone => pyChars ("None")
  | PyVal.vList _ => pyChars ("<list>")
  | PyVal.vDict _ => pyChars ("<dict>")

/-- `_as_tuple(value, default)`: `None` yields the default, a string yields
a one-element tuple, an iterable maps `str` over its items (iterating a
dict yields its keys), anything else yields the default. -/
def asTuple (value : Option PyVal) (dflt : List (List Nat)) :
    List (List Nat) :=
  match value with
  | none => dflt
  | some PyVal.vNone => dflt
  | some (PyVal.vStr s) => [s]
  | some (PyVal.vList xs) => xs.map pyStr
  | some (PyVal.vDict entries) => entries.map (fun e => e.1)
  | some (PyVal.vBool _) => dflt

/-- Python truthiness of a constitution value. -/
def pyBool : PyVal → Bool
  | PyVal.vNone => false
  | PyVal.vBool b => b
  | PyVal.vStr s => !s.isEmpty
  | PyVal.vList xs => !xs.isEmpty
  | PyVal.vDict entries => !entries.isEmpty

/-- `d.get(key, other)` where `other` is itself `c.get(key2, fallback)`. -/
def dGetChain (d : List (List Nat × PyVal)) (k : List Nat)
    (c : List (List Nat × PyVal)) (k2 : List Nat) : Option PyVal :=
  match dGet d k with
  | some v => some v
  | none => dGet c k2

/-- `CommandAuditor._load_config(constitution)`: `none` models the
`AttributeError` raised when a recognized top-level key holds a non-mapping
(the only shapes the code itself calls `.get` on). -/
def loadConfig (constitution : PyVal) : Option HardKillConfig :=
  match constitution with
  | PyVal.vDict c =>
    let subDict : List Nat → Option (List (List Nat × PyVal)) := fun k =>
      match dGet c k with
      | none => some []
      | some (PyVal.vDict d) => some d
      | some _ => none
    match subDict (pyChars ("hard_kill")) with
    | none => none
    | some hard_kill =>
      match subDict (pyChars ("network_lock")) with
      | none => none
      | some network_lock =>
        match subDict (pyChars ("execution_mode")) with
        | none => none
        | some execution_mode =>
          some (HardKillConfig.mk
            (asTuple (dGet hard_kill (pyChars ("blocked_strings")))
              [pyChars ("sudo"), pyChars ("rm -rf"), pyChars ("mkfs")])
            (asTuple (dGet hard_kill (pyChars ("blocked_paths")))
              [pyChars ("~/.ssh"), pyChars ("~/.env"), pyChars ("/etc/")])
            (asTuple (dGet hard_kill (pyChars ("blocked_tools")))
              [pyChars ("python"), pyChars ("pip"), pyChars ("npm")])
            (asTuple (dGet network_lock (pyChars ("blocked_tools")))
              [pyChars ("curl"), pyChars ("wget")])
            (asTuple (dGetChain network_lock (pyChars ("whitelisted_domains"))
              c (pyChars ("whitelisted_domains"))) [])
            (pyBool (match dGetChain execution_mode (pyChars ("lockdown_mode"))
              c (pyChars ("lockdown_mode")) with
              | some v => v
              | none => PyVal.vBool false))
            (asTuple (dGetChain execution_mode (pyChars ("allowed_commands"))
              c (pyChars ("allowed_commands"))) []))
  | _ => none

/-- The configuration loaded from an empty constitution: all defaults. -/
def defaultConfig : HardKillConfig :=
  HardKillConfig.mk
    [pyChars ("sudo"), pyChars ("rm -rf"), pyChars ("mkfs")]
    [pyChars ("~/.ssh"), pyChars ("~/.env"), pyChars ("/etc/")]
    [pyChars ("python"), pyChars ("pip"), pyChars ("npm")]
    [pyChars ("curl"), pyChars ("wget")]
    []
    false
    []

/-! ### The HTTP façade, `sentinel_server.py`

The source handlers never read any header: there is no authentication code
in the server.  The configured token (`SENTINEL_AUTH_TOKEN`, which the test
suite sets and the OpenClaw clients send as `X-Sentinel-Token`) is carried
here as a parameter so that its irrelevance to the source is a statement,
not an omission. -/

/-- An inbound request: the optional `X-Sentinel-Token` header value and the
JSON body's `command`. -/
structure SentinelRequest where
  headerToken : Option (List Nat)
  command : List Nat
deriving DecidableEq

/-- HTTP status of `POST /audit` as implemented: 503 when the runtime is
missing, otherwise 200; no token comparison happens on any path. -/
def auditEndpointStatus (runtimeReady : Bool)
    (configuredToken : Option (List Nat)) (req : SentinelRequest) : Nat :=
  if runtimeReady then 200 else 503

/-- HTTP status of `POST /audit-only` as implemented: same shape. -/
def auditOnlyEndpointStatus (runtimeReady : Bool)
    (configuredToken : Option (List Nat)) (req : SentinelRequest) : Nat :=
  if runtimeReady then 200 else 503

/-- HTTP status of `GET /health`: unconditionally 200. -/
def healthEndpointStatus : Nat := 200

/-! ### Concrete policies used by the claim theorems -/

/-- A constitution with lockdown disabled and a populated allow-list. -/
def c1Constitution : PyVal :=
  PyVal.vDict [(pyChars ("execution_mode"), PyVal.vDict
    [(pyChars ("lockdown_mode"), PyVal.vBool false),
     (pyChars ("allowed_commands"), PyVal.vList [PyVal.vStr (pyChars ("ls"))])])]

/-- The configuration `c1Constitution` loads to. -/
def cfgC1 : HardKillConfig :=
  { defaultConfig with allowed_commands := [pyChars ("ls")] }

/-- A constitution whitelisting `a.com` with a top-level allow-list. -/
def c5Constitution : PyVal :=
  PyVal.vDict [(pyChars ("network_lock"), PyVal.vDict
    [(pyChars ("whitelisted_domains"), PyVal.vList [PyVal.vStr (pyChars ("a.com"))])]),
    (pyChars ("allowed_commands"), PyVal.vList [PyVal.vStr (pyChars ("curl"))])]

/-- The configuration `c5Constitution` loads to. -/
def cfgC5 : HardKillConfig :=
  { defaultConfig with
      whitelisted_domains := [pyChars ("a.com")]
      allowed_commands := [pyChars ("curl")] }

/-- A network-lock configuration whitelisting `api.example.com`. -/
def cfgC6 : HardKillConfig :=
  { defaultConfig with
      blocked_network_tools := [pyChars ("curl")]
      whitelisted_domains := [pyChars ("api.example.com")] }

/-- A lockdown configuration allow-listing `ls`. -/
def cfgC4 : HardKillConfig :=
  { defaultConfig with
      lockdown_mode := true
      allowed_commands := [pyChars ("ls")] }

/-- The top-level constitution keys `_load_config` reads. -/
def recognizedTopKeys : List (List Nat) :=
  [pyChars ("hard_kill"), pyChars ("network_lock"), pyChars ("execution_mode"),
   pyChars ("lockdown_mode"), pyChars ("allowed_commands"),
   pyChars ("whitelisted_domains")]

/-- `cfg` with the allow-list entries that normalize to the empty string
removed. -/
def dropBlankAllowed (cfg : HardKillConfig) : HardKillConfig :=
  { cfg with
      allowed_commands := cfg.allowed_commands.filter
        (fun e => !(pyLower (normalizeCommand e)).isEmpty) }

/-- A configuration whose allow-list holds only blank entries: a single
space and a lone zero-width space. -/
def cfgC10 : HardKillConfig :=
  { defaultConfig with allowed_commands := [[32], [0x200b]] }

/-! ### Helper lemmas about the hard-kill filter -/

/-- Every decision the network-gate loop produces is a rejection. -/
theorem netLoop_reject (cfg : HardKillConfig) :
    ∀ (urls : List (List Nat)) (d : AuditDecision),
      netLoop cfg urls = Except.ok (some d) → d.allowed = false := by
  intro urls
  induction urls with
  | nil =>
    intro d h
    simp [netLoop] at h
  | cons u rest ih =>
    intro d h
    unfold netLoop at h
    split at h
    · exact absurd h (by simp)
    · injection h with h1
      injection h1 with h2
      rw [← h2]
      rfl
    · split at h
      · exact ih d h
      · injection h with h1
        injection h1 with h2
        rw [← h2]
        rfl

/-- Every decision the hard-kill filter produces is a rejection. -/
theorem hardKill_reject (cfg : HardKillConfig) (n : List Nat)
    (d : AuditDecision) (h : hardKillFilter cfg n = Except.ok (some d)) :
    d.allowed = false := by
  unfold hardKillFilter at h
  split at h
  · injection h with h1
    injection h1 with h2
    rw [← h2]
    rfl
  · split at h
    · injection h with h1
      injection h1 with h2
      rw [← h2]
      rfl
    · split at h
      · injection h with h1
        injection h1 with h2
        rw [← h2]
        rfl
      · split at h
        · injection h with h1
          injection h1 with h2
          rw [← h2]
          rfl
        · split at h
          · injection h with h1
            injection h1 with h2
            rw [← h2]
            rfl
          · split at h
            · injection h with h1
              injection h1 with h2
              rw [← h2]
              rfl
            · split at h
              · split at h
                · injection h with h1
                  injection h1 with h2
                  rw [← h2]
                  rfl
                · exact netLoop_reject cfg _ d h
              · exact absurd h (by simp)

/-! ### NFKC acts as the identity on ASCII text -/

/-- Unfolding `asciiOnly` over a cons cell. -/
theorem asciiOnly_cons {c : Nat} {cs : List Nat} :
    asciiOnly (c :: cs) = true ↔ (c < 128 ∧ asciiOnly cs = true) := by
  simp [asciiOnly]

/-- ASCII code points have combining class zero. -/
theorem ccc_ascii {c : Nat} (h : c < 128) : ccc c = 0 := by
  unfold ccc
  rw [if_neg]
  omega

/-- ASCII code points have no decomposition. -/
theorem decompChar_ascii {c : Nat} (h : c < 128) : decompChar c = [c] := by
  unfold decompChar
  rw [if_neg]
  omega

/-- No composition pair ends in an ASCII code point. -/
theorem composePair_ascii {a b : Nat} (h : b < 128) : composePair a b = none := by
  unfold composePair
  rw [if_neg]
  intro hc
  omega

/-- Decomposition is the identity on ASCII text. -/
theorem flatMap_decomp_ascii (l : List Nat) (h : asciiOnly l = true) :
    l.flatMap decompChar = l := by
  induction l with
  | nil => rfl
  | cons c cs ih =>
    rw [asciiOnly_cons] at h
    rw [List.flatMap_cons, decompChar_ascii h.1, ih h.2]
    rfl

/-- Canonical ordering is the identity when every class is zero. -/
theorem canonicalOrder_ascii (l : List Nat) (h : asciiOnly l = true) :
    canonicalOrder l = l := by
  induction l with
  | nil => rfl
  | cons c cs ih =>
    rw [asciiOnly_cons] at h
    rw [canonicalOrder, ih h.2]
    cases cs with
    | nil => rfl
    | cons d ds =>
      unfold insertOrdered
      rw [if_pos (ccc_ascii h.1)]

/-- Composition never fires along ASCII text. -/
theorem composeAux_ascii (l : List Nat) (h : asciiOnly l = true) :
    ∀ L, composeAux L [] l = L :: l := by
  induction l with
  | nil => intro L; rfl
  | cons c cs ih =>
    intro L
    rw [asciiOnly_cons] at h
    rw [composeAux.eq_def]
    simp only [ccc_ascii h.1, List.isEmpty_nil, if_true, ite_true,
      composePair_ascii h.1, List.reverse_nil]
    rw [ih h.2 c]
    rfl

/-- The composition pass is the identity on ASCII text. -/
theorem nfkcCompose_ascii (l : List Nat) (h : asciiOnly l = true) :
    nfkcCompose l = l := by
  cases l with
  | nil => rfl
  | cons c cs =>
    rw [asciiOnly_cons] at h
    unfold nfkcCompose
    rw [if_pos (ccc_ascii h.1)]
    exact composeAux_ascii cs h.2 c

/-- NFKC is the identity on ASCII text. -/
theorem pyNFKC_ascii (l : List Nat) (h : asciiOnly l = true) :
    pyNFKC l = l := by
  unfold pyNFKC
  rw [flatMap_decomp_ascii l h, canonicalOrder_ascii l h, nfkcCompose_ascii l h]

/-- The zero-width strip is the identity on ASCII text. -/
theorem removeZWSP_ascii (l : List Nat) (h : asciiOnly l = true) :
    removeZWSP l = l := by
  unfold removeZWSP
  rw [List.filter_eq_self]
  intro a ha
  simp only [asciiOnly, List.all_eq_true] at h
  have := h a ha
  simp at this ⊢
  omega

/-! ### Structure of the normalizer's output (towards ASCII idempotence)

`bsSp a b` says a backslash is always followed by whitespace; `noBs a b`
says no element with a successor is a backslash (backslashes only in final
position); `noDupSp a b` says no two adjacent whitespace code points
remain. -/

/-- After the escape-stripping pass, every remaining backslash is followed
by whitespace or ends the string. -/
theorem subEsc_chain (l : List Nat) : ∀ k : Nat,
    List.Chain' (fun a b => a = 92 → pySpace b = true) (subEscapesAux k l) := by
  induction l with
  | nil =>
    intro k
    show List.Chain' _ (if k = 0 then [] else [92])
    split
    · exact List.chain'_nil
    · exact List.chain'_singleton _
  | cons c cs ih =>
    intro k
    show List.Chain' _
      (if c = 92 then subEscapesAux (k + 1) cs
       else if k = 0 then c :: subEscapesAux 0 cs
       else if pySpace c then 92 :: c :: subEscapesAux 0 cs
       else c :: subEscapesAux 0 cs)
    by_cases hc : c = 92
    · rw [if_pos hc]
      exact ih (k + 1)
    · rw [if_neg hc]
      by_cases hk : k = 0
      · rw [if_pos hk]
        exact List.chain'_cons'.mpr ⟨fun y _ h92 => absurd h92 hc, ih 0⟩
      · rw [if_neg hk]
        by_cases hsp : pySpace c = true
        · rw [if_pos hsp]
          refine List.chain'_cons'.mpr ⟨?_, ?_⟩
          · intro y hy
            simp only [List.head?_cons, Option.mem_def, Option.some.injEq] at hy
            intro _
            rw [← hy]
            exact hsp
          · exact List.chain'_cons'.mpr ⟨fun y _ h92 => absurd h92 hc, ih 0⟩
        · rw [if_neg hsp]
          exact List.chain'_cons'.mpr ⟨fun y _ h92 => absurd h92 hc, ih 0⟩

/-- After the backslash-whitespace pass on a string whose backslashes all
precede whitespace, backslashes survive only in final position. -/
theorem subBsSp_chain (l : List Nat) : ∀ (k : Nat) (b : Bool), k ≤ 1 →
    List.Chain' (fun a b => a = 92 → pySpace b = true) l →
    (k = 1 → ∀ y ∈ l.head?, pySpace y = true) →
    List.Chain' (fun a _ => a ≠ 92) (subBsSpaceAux k b l) := by
  induction l with
  | nil =>
    intro k b hk _ _
    show List.Chain' _ (List.replicate k 92)
    interval_cases k
    · exact List.chain'_nil
    · exact List.chain'_singleton _
  | cons c cs ih =>
    intro k b hk hch hhd
    have hRc : ∀ y ∈ cs.head?, c = 92 → pySpace y = true := by
      intro y hy h92
      exact (List.chain'_cons'.mp hch).1 y hy h92
    have hch' : List.Chain' (fun a b => a = 92 → pySpace b = true) cs :=
      (List.chain'_cons'.mp hch).2
    show List.Chain' _
      (if b then
        if pySpace c then subBsSpaceAux 0 true cs
        else if c = 92 then subBsSpaceAux 1 false cs
        else c :: subBsSpaceAux 0 false cs
       else if c = 92 then subBsSpaceAux (k + 1) false cs
       else if pySpace c then
         if k = 0 then c :: subBsSpaceAux 0 false cs
         else 32 :: subBsSpaceAux 0 true cs
       else List.replicate k 92 ++ c :: subBsSpaceAux 0 false cs)
    cases b with
    | true =>
      rw [if_pos rfl]
      by_cases hsp : pySpace c = true
      · rw [if_pos hsp]
        exact ih 0 true (by omega) hch' (by omega)
      · rw [if_neg hsp]
        by_cases hc : c = 92
        · rw [if_pos hc]
          exact ih 1 false (by omega) hch' (fun _ y hy => hRc y hy hc)
        · rw [if_neg hc]
          exact List.chain'_cons'.mpr ⟨fun y _ => hc, ih 0 false (by omega) hch' (by omega)⟩
    | false =>
      rw [if_neg (by simp)]
      by_cases hc : c = 92
      · rw [if_pos hc]
        have hk0 : k = 0 := by
          rcases Nat.lt_or_ge k 1 with h | h
          · omega
          · have hk1 : k = 1 := by omega
            have := hhd hk1 c (by simp)
            rw [hc] at this
            exact absurd this (by decide)
        rw [hk0]
        exact ih 1 false (by omega) hch' (fun _ y hy => hRc y hy hc)
      · rw [if_neg hc]
        by_cases hsp : pySpace c = true
        · rw [if_pos hsp]
          by_cases hk0 : k = 0
          · rw [if_pos hk0]
            exact List.chain'_cons'.mpr ⟨fun y _ => hc, ih 0 false (by omega) hch' (by omega)⟩
          · rw [if_neg hk0]
            exact List.chain'_cons'.mpr ⟨fun y _ => by decide, ih 0 true (by omega) hch' (by omega)⟩
        · rw [if_neg hsp]
          have hk0 : k = 0 := by
            rcases Nat.lt_or_ge k 1 with h | h
            · omega
            · have hk1 : k = 1 := by omega
              have := hhd hk1 c (by simp)
              exact absurd this hsp
          rw [hk0, List.replicate_zero, List.nil_append]
          exact List.chain'_cons'.mpr ⟨fun y _ => hc, ih 0 false (by omega) hch' (by omega)⟩

/-- The whitespace-collapse pass keeps the no-interior-backslash
structure. -/
theorem collapse_chainS (l : List Nat)
    (h : List.Chain' (fun a _ => a ≠ 92) l) :
    List.Chain' (fun a _ => a ≠ 92) (collapseWS l) := by
  induction l with
  | nil => exact List.chain'_nil
  | cons c cs ih =>
    cases cs with
    | nil =>
      show List.Chain' _ (if pySpace c then [32] else [c])
      split
      · exact List.chain'_singleton _
      · exact List.chain'_singleton _
    | cons d ds =>
      have hcd : c ≠ 92 := (List.chain'_cons'.mp h).1 d (by simp)
      have h' := (List.chain'_cons'.mp h).2
      show List.Chain' _
        (if pySpace c then
          if pySpace d then collapseWS (d :: ds) else 32 :: collapseWS (d :: ds)
         else c :: collapseWS (d :: ds))
      by_cases hsp : pySpace c = true
      · rw [if_pos hsp]
        by_cases hsd : pySpace d = true
        · rw [if_pos hsd]
          exact ih h'
        · rw [if_neg hsd]
          exact List.chain'_cons'.mpr ⟨fun y _ => by decide, ih h'⟩
      · rw [if_neg hsp]
        exact List.chain'_cons'.mpr ⟨fun y _ => hcd, ih h'⟩

/-- Every whitespace code point the collapse pass leaves behind is a plain
space. -/
theorem collapse_space32 (l : List Nat) :
    ∀ x ∈ collapseWS l, pySpace x = true → x = 32 := by
  induction l with
  | nil => intro x hx; simp [collapseWS] at hx
  | cons c cs ih =>
    cases cs with
    | nil =>
      intro x hx hsp
      by_cases hc : pySpace c = true
      · simp [collapseWS, hc] at hx
        omega
      · simp [collapseWS, hc] at hx
        rw [hx] at hsp
        exact absurd hsp hc
    | cons d ds =>
      intro x hx hsp
      by_cases hc : pySpace c = true
      · by_cases hd : pySpace d = true
        · rw [show collapseWS (c :: d :: ds) = collapseWS (d :: ds) by
            simp [collapseWS, hc, hd]] at hx
          exact ih x hx hsp
        · rw [show collapseWS (c :: d :: ds) = 32 :: collapseWS (d :: ds) by
            simp [collapseWS, hc, hd]] at hx
          rcases List.mem_cons.mp hx with h | h
          · omega
          · exact ih x h hsp
      · rw [show collapseWS (c :: d :: ds) = c :: collapseWS (d :: ds) by
          simp [collapseWS, hc]] at hx
        rcases List.mem_cons.mp hx with h | h
        · rw [h] at hsp
          exact absurd hsp hc
        · exact ih x h hsp

/-- The head the collapse pass emits for a non-space head is that head. -/
theorem collapse_head (d : Nat) (rest : List Nat) (hd : ¬pySpace d = true) :
    (collapseWS (d :: rest)).head? = some d := by
  cases rest with
  | nil => simp [collapseWS, hd]
  | cons e es => simp [collapseWS, hd]

/-- The collapse pass leaves no two adjacent whitespace code points. -/
theorem collapse_chainT (l : List Nat) :
    List.Chain' (fun a b => ¬(pySpace a = true ∧ pySpace b = true))
      (collapseWS l) := by
  induction l with
  | nil => exact List.chain'_nil
  | cons c cs ih =>
    cases cs with
    | nil =>
      show List.Chain' _ (if pySpace c then [32] else [c])
      split
      · exact List.chain'_singleton _
      · exact List.chain'_singleton _
    | cons d ds =>
      show List.Chain' _
        (if pySpace c then
          if pySpace d then collapseWS (d :: ds) else 32 :: collapseWS (d :: ds)
         else c :: collapseWS (d :: ds))
      by_cases hc : pySpace c = true
      · by_cases hd : pySpace d = true
        · rw [if_pos hc, if_pos hd]
          exact ih
        · rw [if_pos hc, if_neg hd]
          refine List.chain'_cons'.mpr ⟨?_, ih⟩
          intro y hy
          rw [collapse_head d ds hd] at hy
          simp only [Option.mem_def, Option.some.injEq] at hy
          rw [← hy]
          intro hcon
          exact hd hcon.2
      · rw [if_neg hc]
        refine List.chain'_cons'.mpr ⟨?_, ih⟩
        intro y _
        intro hcon
        exact hc hcon.1

/-- A list whose head does not satisfy the predicate is fixed by
`dropWhile`. -/
theorem dropWhile_fix_of_head (p : Nat → Bool) (l : List Nat)
    (h : ∀ a ∈ l.head?, ¬p a = true) : l.dropWhile p = l := by
  cases l with
  | nil => rfl
  | cons a as => rw [List.dropWhile_cons_of_neg (h a (by simp))]

/-- The head of `dropWhile` never satisfies the predicate. -/
theorem head_dropWhile_not (p : Nat → Bool) (l : List Nat) :
    ∀ a ∈ (l.dropWhile p).head?, ¬p a = true := by
  induction l with
  | nil => intro a ha; simp at ha
  | cons c cs ih =>
    intro a ha
    by_cases hc : p c = true
    · rw [List.dropWhile_cons_of_pos hc] at ha
      exact ih a ha
    · rw [List.dropWhile_cons_of_neg hc] at ha
      simp only [List.head?_cons, Option.mem_def, Option.some.injEq] at ha
      rw [← ha]
      exact hc

/-- The right-strip keeps a prefix of its input. -/
theorem stripRight_isPrefix (l : List Nat) :
    (l.reverse.dropWhile pySpace).reverse <+: l := by
  have h1 : l.reverse.dropWhile pySpace <:+ l.reverse :=
    List.dropWhile_suffix pySpace
  have h2 := List.reverse_prefix.mpr h1
  rwa [List.reverse_reverse] at h2

/-- The head of a prefix is the head of the whole list (or the prefix is
empty). -/
theorem IsPrefix_head (x y : List Nat) (h : x <+: y) :
    x = [] ∨ x.head? = y.head? := by
  obtain ⟨t, rfl⟩ := h
  cases x with
  | nil => exact Or.inl rfl
  | cons a as => exact Or.inr (by simp)

/-- Python strip is idempotent. -/
theorem pyStrip_idem (l : List Nat) : pyStrip (pyStrip l) = pyStrip l := by
  unfold pyStrip
  set y := l.dropWhile pySpace with hy
  have hyhead : ∀ a ∈ y.head?, ¬pySpace a = true := head_dropWhile_not _ l
  set r := (y.reverse.dropWhile pySpace).reverse with hr
  have hrpre : r <+: y := stripRight_isPrefix y
  have hrhead : ∀ a ∈ r.head?, ¬pySpace a = true := by
    rcases IsPrefix_head r y hrpre with h | h
    · rw [h]
      intro a ha
      simp at ha
    · rw [h]
      exact hyhead
  rw [dropWhile_fix_of_head pySpace r hrhead]
  rw [show r.reverse.dropWhile pySpace = r.reverse by
    rw [hr, List.reverse_reverse]
    exact dropWhile_fix_of_head pySpace (y.reverse.dropWhile pySpace)
      (head_dropWhile_not pySpace y.reverse)]
  rw [List.reverse_reverse]

/-- Python strip keeps an infix of its input. -/
theorem pyStrip_isInfix (l : List Nat) : pyStrip l <:+: l := by
  unfold pyStrip
  exact List.IsInfix.trans
    (List.IsPrefix.isInfix (stripRight_isPrefix (l.dropWhile pySpace)))
    (List.IsSuffix.isInfix (List.dropWhile_suffix pySpace))

/-- The continuation-join scan is the identity on strings without LF. -/
theorem subCont_fix (r : List Nat) (h : ∀ x ∈ r, x ≠ 10) :
    subContAux 0 r = r ∧ subContAux 1 r = 92 :: r ∧
      subContAux 2 r = 92 :: 13 :: r := by
  induction r with
  | nil => exact ⟨rfl, rfl, rfl⟩
  | cons c cs ih =>
    have hc : c ≠ 10 := h c (by simp)
    have ih' := ih (fun x hx => h x (List.mem_cons_of_mem c hx))
    refine ⟨?_, ?_, ?_⟩
    · show (if c = 92 then subContAux 1 cs else c :: subContAux 0 cs) = c :: cs
      by_cases h92 : c = 92
      · rw [if_pos h92, ih'.2.1, h92]
      · rw [if_neg h92, ih'.1]
    · show (if c = 10 then subContAux 0 cs
        else if c = 13 then subContAux 2 cs
        else if c = 92 then 92 :: subContAux 1 cs
        else 92 :: c :: subContAux 0 cs) = 92 :: c :: cs
      rw [if_neg hc]
      by_cases h13 : c = 13
      · rw [if_pos h13, ih'.2.2, h13]
      · rw [if_neg h13]
        by_cases h92 : c = 92
        · rw [if_pos h92, ih'.2.1, h92]
        · rw [if_neg h92, ih'.1]
    · show (if c = 10 then subContAux 0 cs
        else if c = 92 then 92 :: 13 :: subContAux 1 cs
        else 92 :: 13 :: c :: subContAux 0 cs) = 92 :: 13 :: c :: cs
      rw [if_neg hc]
      by_cases h92 : c = 92
      · rw [if_pos h92, ih'.2.1, h92]
      · rw [if_neg h92, ih'.1]

/-- The escape-stripping pass fixes strings whose backslashes are all
final. -/
theorem subEsc_fix (r : List Nat)
    (h : List.Chain' (fun a _ => a ≠ 92) r) : subEscapesAux 0 r = r := by
  induction r with
  | nil => rfl
  | cons c cs ih =>
    show (if c = 92 then subEscapesAux 1 cs
      else if (0 : Nat) = 0 then c :: subEscapesAux 0 cs
      else if pySpace c then 92 :: c :: subEscapesAux 0 cs
      else c :: subEscapesAux 0 cs) = c :: cs
    by_cases h92 : c = 92
    · rw [if_pos h92]
      cases cs with
      | nil => rw [h92]; rfl
      | cons d ds =>
        exact absurd h92 ((List.chain'_cons'.mp h).1 d (by simp))
    · rw [if_neg h92, if_pos rfl, ih (List.chain'_cons'.mp h).2]

/-- The backslash-whitespace pass fixes strings whose backslashes are all
final. -/
theorem subBsSp_fix (r : List Nat)
    (h : List.Chain' (fun a _ => a ≠ 92) r) :
    subBsSpaceAux 0 false r = r := by
  induction r with
  | nil => rfl
  | cons c cs ih =>
    show (if false = true then
        if pySpace c then subBsSpaceAux 0 true cs
        else if c = 92 then subBsSpaceAux 1 false cs
        else c :: subBsSpaceAux 0 false cs
      else if c = 92 then subBsSpaceAux (0 + 1) false cs
      else if pySpace c then
        if (0 : Nat) = 0 then c :: subBsSpaceAux 0 false cs
        else 32 :: subBsSpaceAux 0 true cs
      else List.replicate 0 92 ++ c :: subBsSpaceAux 0 false cs) = c :: cs
    rw [if_neg (by simp)]
    by_cases h92 : c = 92
    · rw [if_pos h92]
      cases cs with
      | nil => rw [h92]; rfl
      | cons d ds =>
        exact absurd h92 ((List.chain'_cons'.mp h).1 d (by simp))
    · rw [if_neg h92]
      have ih' := ih (List.chain'_cons'.mp h).2
      by_cases hsp : pySpace c = true
      · rw [if_pos hsp, if_pos rfl, ih']
      · rw [if_neg hsp, List.replicate_zero, List.nil_append, ih']

/-- The collapse pass fixes strings with only plain single spaces. -/
theorem collapse_fix (r : List Nat)
    (hA : ∀ x ∈ r, pySpace x = true → x = 32)
    (hB : List.Chain' (fun a b => ¬(pySpace a = true ∧ pySpace b = true)) r) :
    collapseWS r = r := by
  induction r with
  | nil => rfl
  | cons c cs ih =>
    cases cs with
    | nil =>
      show (if pySpace c then [32] else [c]) = [c]
      by_cases hsp : pySpace c = true
      · rw [if_pos hsp, hA c (by simp) hsp]
      · rw [if_neg hsp]
    | cons d ds =>
      have hT : ¬(pySpace c = true ∧ pySpace d = true) :=
        (List.chain'_cons'.mp hB).1 d (by simp)
      have ih' := ih (fun x hx => hA x (List.mem_cons_of_mem c hx))
        (List.chain'_cons'.mp hB).2
      show (if pySpace c then
          if pySpace d then collapseWS (d :: ds) else 32 :: collapseWS (d :: ds)
        else c :: collapseWS (d :: ds)) = c :: d :: ds
      by_cases hsp : pySpace c = true
      · rw [if_pos hsp]
        have hd : ¬pySpace d = true := fun hd => hT ⟨hsp, hd⟩
        rw [if_neg hd, ih', hA c (by simp) hsp]
      · rw [if_neg hsp, ih']

/-- Code points produced by the continuation scan come from the input or
are backslash/CR. -/
theorem mem_subContAux (l : List Nat) : ∀ (s : Nat) (x : Nat),
    x ∈ subContAux s l → x ∈ l ∨ x = 92 ∨ x = 13 := by
  induction l with
  | nil =>
    intro s x hx
    match s, hx with
    | 0, hx => simp [subContAux] at hx
    | 1, hx => simp [subContAux] at hx; omega
    | n + 2, hx => simp [subContAux] at hx; omega
  | cons c cs ih =>
    intro s x hx
    have step : ∀ y ∈ subContAux 0 cs, y ∈ c :: cs ∨ y = 92 ∨ y = 13 := by
      intro y hy
      rcases ih 0 y hy with h | h
      · exact Or.inl (List.mem_cons_of_mem c h)
      · exact Or.inr h
    have step1 : ∀ y ∈ subContAux 1 cs, y ∈ c :: cs ∨ y = 92 ∨ y = 13 := by
      intro y hy
      rcases ih 1 y hy with h | h
      · exact Or.inl (List.mem_cons_of_mem c h)
      · exact Or.inr h
    have step2 : ∀ y ∈ subContAux 2 cs, y ∈ c :: cs ∨ y = 92 ∨ y = 13 := by
      intro y hy
      rcases ih 2 y hy with h | h
      · exact Or.inl (List.mem_cons_of_mem c h)
      · exact Or.inr h
    match s with
    | 0 =>
      rw [show subContAux 0 (c :: cs) =
        (if c = 92 then subContAux 1 cs else c :: subContAux 0 cs) from rfl] at hx
      split at hx
      · exact step1 x hx
      · rcases List.mem_cons.mp hx with h | h
        · exact Or.inl (by rw [h]; simp)
        · exact step x h
    | 1 =>
      rw [show subContAux 1 (c :: cs) =
        (if c = 10 then subContAux 0 cs
         else if c = 13 then subContAux 2 cs
         else if c = 92 then 92 :: subContAux 1 cs
         else 92 :: c :: subContAux 0 cs) from rfl] at hx
      split at hx
      · exact step x hx
      · split at hx
        · exact step2 x hx
        · split at hx
          · rcases List.mem_cons.mp hx with h | h
            · exact Or.inr (Or.inl h)
            · exact step1 x h
          · rcases List.mem_cons.mp hx with h | h
            · exact Or.inr (Or.inl h)
            · rcases List.mem_cons.mp h with h2 | h2
              · exact Or.inl (by rw [h2]; simp)
              · exact step x h2
    | n + 2 =>
      rw [show subContAux (n + 2) (c :: cs) =
        (if c = 10 then subContAux 0 cs
         else if c = 92 then 92 :: 13 :: subContAux 1 cs
         else 92 :: 13 :: c :: subContAux 0 cs) from rfl] at hx
      split at hx
      · exact step x hx
      · split at hx
        · rcases List.mem_cons.mp hx with h | h
          · exact Or.inr (Or.inl h)
          · rcases List.mem_cons.mp h with h2 | h2
            · exact Or.inr (Or.inr h2)
            · exact step1 x h2
        · rcases List.mem_cons.mp hx with h | h
          · exact Or.inr (Or.inl h)
          · rcases List.mem_cons.mp h with h2 | h2
            · exact Or.inr (Or.inr h2)
            · rcases List.mem_cons.mp h2 with h3 | h3
              · exact Or.inl (by rw [h3]; simp)
              · exact step x h3

/-- Code points produced by the escape strip come from the input or are a
backslash. -/
theorem mem_subEscAux (l : List Nat) : ∀ (k : Nat) (x : Nat),
    x ∈ subEscapesAux k l → x ∈ l ∨ x = 92 := by
  induction l with
  | nil =>
    intro k x hx
    rw [show subEscapesAux k [] = (if k = 0 then [] else [92]) from rfl] at hx
    split at hx
    · simp at hx
    · simp at hx
      exact Or.inr hx
  | cons c cs ih =>
    intro k x hx
    have step : ∀ (k2 : Nat) (y : Nat), y ∈ subEscapesAux k2 cs →
        y ∈ c :: cs ∨ y = 92 := by
      intro k2 y hy
      rcases ih k2 y hy with h | h
      · exact Or.inl (List.mem_cons_of_mem c h)
      · exact Or.inr h
    rw [show subEscapesAux k (c :: cs) =
      (if c = 92 then subEscapesAux (k + 1) cs
       else if k = 0 then c :: subEscapesAux 0 cs
       else if pySpace c then 92 :: c :: subEscapesAux 0 cs
       else c :: subEscapesAux 0 cs) from rfl] at hx
    split at hx
    · exact step (k + 1) x hx
    · split at hx
      · rcases List.mem_cons.mp hx with h | h
        · exact Or.inl (by rw [h]; simp)
        · exact step 0 x h
      · split at hx
        · rcases List.mem_cons.mp hx with h | h
          · exact Or.inr h
          · rcases List.mem_cons.mp h with h2 | h2
            · exact Or.inl (by rw [h2]; simp)
            · exact step 0 x h2
        · rcases List.mem_cons.mp hx with h | h
          · exact Or.inl (by rw [h]; simp)
          · exact step 0 x h

/-- Code points produced by the backslash-whitespace pass come from the
input or are backslash/space. -/
theorem mem_subBsSpAux (l : List Nat) : ∀ (k : Nat) (b : Bool) (x : Nat),
    x ∈ subBsSpaceAux k b l → x ∈ l ∨ x = 92 ∨ x = 32 := by
  induction l with
  | nil =>
    intro k b x hx
    rw [show subBsSpaceAux k b [] = List.replicate k 92 from rfl] at hx
    have := List.eq_of_mem_replicate hx
    exact Or.inr (Or.inl this)
  | cons c cs ih =>
    intro k b x hx
    have step : ∀ (k2 : Nat) (b2 : Bool) (y : Nat), y ∈ subBsSpaceAux k2 b2 cs →
        y ∈ c :: cs ∨ y = 92 ∨ y = 32 := by
      intro k2 b2 y hy
      rcases ih k2 b2 y hy with h | h
      · exact Or.inl (List.mem_cons_of_mem c h)
      · exact Or.inr h
    rw [show subBsSpaceAux k b (c :: cs) =
      (if b then
        if pySpace c then subBsSpaceAux 0 true cs
        else if c = 92 then subBsSpaceAux 1 false cs
        else c :: subBsSpaceAux 0 false cs
       else if c = 92 then subBsSpaceAux (k + 1) false cs
       else if pySpace c then
         if k = 0 then c :: subBsSpaceAux 0 false cs
         else 32 :: subBsSpaceAux 0 true cs
       else List.replicate k 92 ++ c :: subBsSpaceAux 0 false cs) from rfl] at hx
    split at hx
    · split at hx
      · exact step 0 true x hx
      · split at hx
        · exact step 1 false x hx
        · rcases List.mem_cons.mp hx with h | h
          · exact Or.inl (by rw [h]; simp)
          · exact step 0 false x h
    · split at hx
      · exact step (k + 1) false x hx
      · split at hx
        · split at hx
          · rcases List.mem_cons.mp hx with h | h
            · exact Or.inl (by rw [h]; simp)
            · exact step 0 false x h
          · rcases List.mem_cons.mp hx with h | h
            · exact Or.inr (Or.inr h)
            · exact step 0 true x h
        · rcases List.mem_append.mp hx with h | h
          · exact Or.inr (Or.inl (List.eq_of_mem_replicate h))
          · rcases List.mem_cons.mp h with h2 | h2
            · exact Or.inl (by rw [h2]; simp)
            · exact step 0 false x h2

/-- Code points produced by the collapse pass come from the input or are a
space. -/
theorem mem_collapse (l : List Nat) : ∀ x ∈ collapseWS l, x ∈ l ∨ x = 32 := by
  induction l with
  | nil => intro x hx; simp [collapseWS] at hx
  | cons c cs ih =>
    intro x hx
    cases cs with
    | nil =>
      rw [show collapseWS [c] = (if pySpace c then [32] else [c]) from rfl] at hx
      split at hx
      · simp at hx
        exact Or.inr hx
      · simp at hx
        exact Or.inl (by rw [hx]; simp)
    | cons d ds =>
      have step : ∀ y ∈ collapseWS (d :: ds), y ∈ c :: d :: ds ∨ y = 32 := by
        intro y hy
        rcases ih y hy with h | h
        · exact Or.inl (List.mem_cons_of_mem c h)
        · exact Or.inr h
      rw [show collapseWS (c :: d :: ds) =
        (if pySpace c then
          if pySpace d then collapseWS (d :: ds) else 32 :: collapseWS (d :: ds)
         else c :: collapseWS (d :: ds)) from rfl] at hx
      split at hx
      · split at hx
        · exact step x hx
        · rcases List.mem_cons.mp hx with h | h
          · exact Or.inr h
          · exact step x h
      · rcases List.mem_cons.mp hx with h | h
        · exact Or.inl (by rw [h]; simp)
        · exact step x h

/-- The normalizer's output over ASCII input is ASCII. -/
theorem normalize_ascii (c : List Nat) (hc : asciiOnly c = true) :
    asciiOnly (normalizeCommand c) = true := by
  unfold normalizeCommand
  rw [pyNFKC_ascii c hc, removeZWSP_ascii c hc]
  simp only [asciiOnly, List.all_eq_true] at hc ⊢
  intro x hx
  have hx1 := (pyStrip_isInfix _).subset hx
  rcases mem_collapse _ x hx1 with h | h
  · rcases mem_subBsSpAux _ 0 false x h with h2 | h2
    · rcases mem_subEscAux _ 0 x h2 with h3 | h3
      · rcases mem_subContAux c 0 x h3 with h4 | h4
        · exact hc x h4
        · simp
          omega
      · simp
        omega
    · simp
      omega
  · simp
    omega

/-- Claim C8 amended: normalization is idempotent on ASCII strings. -/
theorem claim_C8_amended : ∀ c : List Nat, asciiOnly c = true →
    normalizeCommand (normalizeCommand c) = normalizeCommand c := by
  intro c hc
  have hrdef : normalizeCommand c =
      pyStrip (collapseWS (subBsSpace (subEscapes (subContinuation c)))) := by
    unfold normalizeCommand
    rw [pyNFKC_ascii c hc, removeZWSP_ascii c hc]
  have hchR := subEsc_chain (subContinuation c) 0
  have hchSv := subBsSp_chain (subEscapes (subContinuation c)) 0 false
    (by omega) hchR (by omega)
  have hchSw := collapse_chainS _ hchSv
  have hchSr := List.Chain'.infix hchSw (pyStrip_isInfix _)
  have hTr := List.Chain'.infix
    (collapse_chainT (subBsSpace (subEscapes (subContinuation c))))
    (pyStrip_isInfix _)
  have hAr : ∀ x ∈ pyStrip (collapseWS (subBsSpace (subEscapes
      (subContinuation c)))), pySpace x = true → x = 32 := by
    intro x hx
    exact collapse_space32 _ x ((pyStrip_isInfix _).subset hx)
  have h10r : ∀ x ∈ pyStrip (collapseWS (subBsSpace (subEscapes
      (subContinuation c)))), x ≠ 10 := by
    intro x hx hx10
    rw [hx10] at hx
    have := hAr 10 hx (by decide)
    omega
  have hascii := normalize_ascii c hc
  rw [hrdef] at hascii
  rw [hrdef]
  unfold normalizeCommand
  rw [pyNFKC_ascii _ hascii, removeZWSP_ascii _ hascii]
  rw [show subContinuation (pyStrip (collapseWS (subBsSpace (subEscapes
    (subContinuation c))))) = pyStrip (collapseWS (subBsSpace (subEscapes
    (subContinuation c)))) from (subCont_fix _ h10r).1]
  rw [show subEscapes (pyStrip (collapseWS (subBsSpace (subEscapes
    (subContinuation c))))) = pyStrip (collapseWS (subBsSpace (subEscapes
    (subContinuation c)))) from subEsc_fix _ hchSr]
  rw [show subBsSpace (pyStrip (collapseWS (subBsSpace (subEscapes
    (subContinuation c))))) = pyStrip (collapseWS (subBsSpace (subEscapes
    (subContinuation c)))) from subBsSp_fix _ hchSr]
  rw [collapse_fix _ hAr hTr]
  exact pyStrip_idem _

/-- Claim C8 amended witness: idempotence at a concrete ASCII command with
backslashes and whitespace runs. -/
theorem claim_C8_witness :
    normalizeCommand (normalizeCommand (pyChars ("a\\ b   c\\d  "))) =
      normalizeCommand (pyChars ("a\\ b   c\\d  ")) :=
  claim_C8_amended (pyChars ("a\\ b   c\\d  ")) (by decide)

/-! ### The ASCII case maps commute with the pipeline -/

/-- `str.upper` on the ASCII range has all the `caseMapOK` properties. -/
theorem caseMapOK_upper : caseMapOK upperChar := by
  refine ⟨?_, ?_, ?_, ?_, ?_, ?_, ?_, ?_⟩
  · intro c
    unfold upperChar
    split
    · unfold pySpace
      rw [decide_eq_decide]
      omega
    · rfl
  · intro c hc
    unfold upperChar
    rw [if_neg]
    unfold pySpace at hc
    rw [decide_eq_true_eq] at hc
    omega
  · intro c
    unfold upperChar
    split <;> omega
  · intro c
    unfold upperChar
    split <;> omega
  · intro c
    unfold upperChar
    split <;> omega
  · intro c
    unfold upperChar
    split <;> omega
  · intro c hc
    unfold upperChar
    split <;> omega
  · intro c
    unfold lowerChar upperChar
    repeat' split
    all_goals omega

/-- `str.lower` on the ASCII range has all the `caseMapOK` properties. -/
theorem caseMapOK_lower : caseMapOK lowerChar := by
  refine ⟨?_, ?_, ?_, ?_, ?_, ?_, ?_, ?_⟩
  · intro c
    unfold lowerChar
    split
    · unfold pySpace
      rw [decide_eq_decide]
      omega
    · rfl
  · intro c hc
    unfold lowerChar
    rw [if_neg]
    unfold pySpace at hc
    rw [decide_eq_true_eq] at hc
    omega
  · intro c
    unfold lowerChar
    split <;> omega
  · intro c
    unfold lowerChar
    split <;> omega
  · intro c
    unfold lowerChar
    split <;> omega
  · intro c
    unfold lowerChar
    split <;> omega
  · intro c hc
    unfold lowerChar
    split <;> omega
  · intro c
    unfold lowerChar
    repeat' split
    all_goals omega

/-- A `caseMapOK` map reflects every whitespace code point. -/
theorem sigma_sp_eq {f : Nat → Nat} (h : caseMapOK f) (d : Nat)
    (hd : pySpace d = true) : ∀ c, f c = d ↔ c = d := by
  intro c
  constructor
  · intro he
    have h1 := h.1 c
    rw [he, hd] at h1
    have h2 := h.2.1 c h1.symm
    rw [← h2, he]
  · intro he
    rw [he]
    exact h.2.1 d hd

/-- A `caseMapOK` map preserves shlex whitespace status. -/
theorem shlexWS_sigma {f : Nat → Nat} (h : caseMapOK f) (c : Nat) :
    shlexWS (f c) = shlexWS c := by
  have h32 := sigma_sp_eq h 32 (by decide) c
  have h9 := sigma_sp_eq h 9 (by decide) c
  have h13 := sigma_sp_eq h 13 (by decide) c
  have h10 := sigma_sp_eq h 10 (by decide) c
  unfold shlexWS
  rw [decide_eq_decide, h32, h9, h13, h10]

/-- The continuation scan commutes with a `caseMapOK` map. -/
theorem subContAux_map {f : Nat → Nat} (h : caseMapOK f) (l : List Nat) :
    ∀ s : Nat, subContAux s (List.map f l) = List.map f (subContAux s l) := by
  have h92 : f 92 = 92 := (h.2.2.1 92).mpr rfl
  have h13 : f 13 = 13 := h.2.1 13 (by decide)
  induction l with
  | nil =>
    intro s
    match s with
    | 0 => rfl
    | 1 => simp [subContAux, h92]
    | n + 2 => simp [subContAux, h92, h13]
  | cons c cs ih =>
    intro s
    have e92 := h.2.2.1 c
    have e10 := sigma_sp_eq h 10 (by decide) c
    have e13 := sigma_sp_eq h 13 (by decide) c
    match s with
    | 0 =>
      show (if f c = 92 then subContAux 1 (List.map f cs)
        else f c :: subContAux 0 (List.map f cs)) =
        List.map f (if c = 92 then subContAux 1 cs else c :: subContAux 0 cs)
      by_cases hc : c = 92
      · rw [if_pos (e92.mpr hc), if_pos hc, ih 1]
      · rw [if_neg (fun he => hc (e92.mp he)), if_neg hc, List.map_cons, ih 0]
    | 1 =>
      show (if f c = 10 then subContAux 0 (List.map f cs)
        else if f c = 13 then subContAux 2 (List.map f cs)
        else if f c = 92 then 92 :: subContAux 1 (List.map f cs)
        else 92 :: f c :: subContAux 0 (List.map f cs)) =
        List.map f (if c = 10 then subContAux 0 cs
        else if c = 13 then subContAux 2 cs
        else if c = 92 then 92 :: subContAux 1 cs
        else 92 :: c :: subContAux 0 cs)
      by_cases h10 : c = 10
      · rw [if_pos (e10.mpr h10), if_pos h10, ih 0]
      · rw [if_neg (fun he => h10 (e10.mp he)), if_neg h10]
        by_cases hc13 : c = 13
        · rw [if_pos (e13.mpr hc13), if_pos hc13, ih 2]
        · rw [if_neg (fun he => hc13 (e13.mp he)), if_neg hc13]
          by_cases hc : c = 92
          · rw [if_pos (e92.mpr hc), if_pos hc, List.map_cons, h92, ih 1]
          · rw [if_neg (fun he => hc (e92.mp he)), if_neg hc, List.map_cons,
              List.map_cons, h92, ih 0]
    | n + 2 =>
      show (if f c = 10 then subContAux 0 (List.map f cs)
        else if f c = 92 then 92 :: 13 :: subContAux 1 (List.map f cs)
        else 92 :: 13 :: f c :: subContAux 0 (List.map f cs)) =
        List.map f (if c = 10 then subContAux 0 cs
        else if c = 92 then 92 :: 13 :: subContAux 1 cs
        else 92 :: 13 :: c :: subContAux 0 cs)
      by_cases h10 : c = 10
      · rw [if_pos (e10.mpr h10), if_pos h10, ih 0]
      · rw [if_neg (fun he => h10 (e10.mp he)), if_neg h10]
        by_cases hc : c = 92
        · rw [if_pos (e92.mpr hc), if_pos hc]
          simp only [List.map_cons, h92, h13, ih 1]
        · rw [if_neg (fun he => hc (e92.mp he)), if_neg hc]
          simp only [List.map_cons, h92, h13, ih 0]

/-- The escape strip commutes with a `caseMapOK` map. -/
theorem subEscAux_map {f : Nat → Nat} (h : caseMapOK f) (l : List Nat) :
    ∀ k : Nat, subEscapesAux k (List.map f l) = List.map f (subEscapesAux k l) := by
  have h92 : f 92 = 92 := (h.2.2.1 92).mpr rfl
  induction l with
  | nil =>
    intro k
    show (if k = 0 then [] else [92]) =
      List.map f (if k = 0 then [] else [92])
    split <;> simp [h92]
  | cons c cs ih =>
    intro k
    have e92 := h.2.2.1 c
    show (if f c = 92 then subEscapesAux (k + 1) (List.map f cs)
      else if k = 0 then f c :: subEscapesAux 0 (List.map f cs)
      else if pySpace (f c) then 92 :: f c :: subEscapesAux 0 (List.map f cs)
      else f c :: subEscapesAux 0 (List.map f cs)) =
      List.map f (if c = 92 then subEscapesAux (k + 1) cs
      else if k = 0 then c :: subEscapesAux 0 cs
      else if pySpace c then 92 :: c :: subEscapesAux 0 cs
      else c :: subEscapesAux 0 cs)
    by_cases hc : c = 92
    · rw [if_pos (e92.mpr hc), if_pos hc, ih (k + 1)]
    · rw [if_neg (fun he => hc (e92.mp he)), if_neg hc]
      by_cases hk : k = 0
      · rw [if_pos hk, if_pos hk, List.map_cons, ih 0]
      · rw [if_neg hk, if_neg hk, h.1 c]
        by_cases hsp : pySpace c = true
        · rw [if_pos hsp, if_pos hsp]
          simp only [List.map_cons, h92, ih 0]
        · rw [if_neg hsp, if_neg hsp, List.map_cons, ih 0]

/-- The backslash-whitespace pass commutes with a `caseMapOK` map. -/
theorem subBsSpAux_map {f : Nat → Nat} (h : caseMapOK f) (l : List Nat) :
    ∀ (k : Nat) (b : Bool),
      subBsSpaceAux k b (List.map f l) = List.map f (subBsSpaceAux k b l) := by
  have h92 : f 92 = 92 := (h.2.2.1 92).mpr rfl
  have h32 : f 32 = 32 := h.2.1 32 (by decide)
  have hrep : ∀ k : Nat, List.map f (List.replicate k 92) =
      List.replicate k 92 := by
    intro k
    rw [List.map_replicate, h92]
  induction l with
  | nil =>
    intro k b
    show List.replicate k 92 = List.map f (List.replicate k 92)
    rw [hrep]
  | cons c cs ih =>
    intro k b
    have e92 := h.2.2.1 c
    show (if b then
        if pySpace (f c) then subBsSpaceAux 0 true (List.map f cs)
        else if f c = 92 then subBsSpaceAux 1 false (List.map f cs)
        else f c :: subBsSpaceAux 0 false (List.map f cs)
      else if f c = 92 then subBsSpaceAux (k + 1) false (List.map f cs)
      else if pySpace (f c) then
        if k = 0 then f c :: subBsSpaceAux 0 false (List.map f cs)
        else 32 :: subBsSpaceAux 0 true (List.map f cs)
      else List.replicate k 92 ++ f c :: subBsSpaceAux 0 false (List.map f cs)) =
      List.map f (if b then
        if pySpace c then subBsSpaceAux 0 true cs
        else if c = 92 then subBsSpaceAux 1 false cs
        else c :: subBsSpaceAux 0 false cs
      else if c = 92 then subBsSpaceAux (k + 1) false cs
      else if pySpace c then
        if k = 0 then c :: subBsSpaceAux 0 false cs
        else 32 :: subBsSpaceAux 0 true cs
      else List.replicate k 92 ++ c :: subBsSpaceAux 0 false cs)
    cases b with
    | true =>
      rw [if_pos rfl, if_pos rfl, h.1 c]
      by_cases hsp : pySpace c = true
      · rw [if_pos hsp, if_pos hsp, ih 0 true]
      · rw [if_neg hsp, if_neg hsp]
        by_cases hc : c = 92
        · rw [if_pos (e92.mpr hc), if_pos hc, ih 1 false]
        · rw [if_neg (fun he => hc (e92.mp he)), if_neg hc, List.map_cons,
            ih 0 false]
    | false =>
      rw [if_neg Bool.false_ne_true, if_neg Bool.false_ne_true]
      by_cases hc : c = 92
      · rw [if_pos (e92.mpr hc), if_pos hc, ih (k + 1) false]
      · rw [if_neg (fun he => hc (e92.mp he)), if_neg hc, h.1 c]
        by_cases hsp : pySpace c = true
        · rw [if_pos hsp, if_pos hsp]
          by_cases hk : k = 0
          · rw [if_pos hk, if_pos hk, List.map_cons, ih 0 false]
          · rw [if_neg hk, if_neg hk, List.map_cons, h32, ih 0 true]
        · rw [if_neg hsp, if_neg hsp, List.map_append, hrep, List.map_cons,
            ih 0 false]

/-- The whitespace collapse commutes with a `caseMapOK` map. -/
theorem collapseWS_map {f : Nat → Nat} (h : caseMapOK f) (l : List Nat) :
    collapseWS (List.map f l) = List.map f (collapseWS l) := by
  have h32 : f 32 = 32 := h.2.1 32 (by decide)
  induction l with
  | nil => rfl
  | cons c cs ih =>
    cases cs with
    | nil =>
      show (if pySpace (f c) then [32] else [f c]) =
        List.map f (if pySpace c then [32] else [c])
      rw [h.1 c]
      split <;> simp [h32]
    | cons d ds =>
      show (if pySpace (f c) then
          if pySpace (f d) then collapseWS (List.map f (d :: ds))
          else 32 :: collapseWS (List.map f (d :: ds))
        else f c :: collapseWS (List.map f (d :: ds))) =
        List.map f (if pySpace c then
          if pySpace d then collapseWS (d :: ds) else 32 :: collapseWS (d :: ds)
        else c :: collapseWS (d :: ds))
      rw [h.1 c, h.1 d]
      by_cases hsp : pySpace c = true
      · rw [if_pos hsp, if_pos hsp]
        by_cases hsd : pySpace d = true
        · rw [if_pos hsd, if_pos hsd, ih]
        · rw [if_neg hsd, if_neg hsd, ih, List.map_cons, h32]
      · rw [if_neg hsp, if_neg hsp, ih, List.map_cons]

/-- Python strip commutes with a `caseMapOK` map. -/
theorem pyStrip_map {f : Nat → Nat} (h : caseMapOK f) (l : List Nat) :
    pyStrip (List.map f l) = List.map f (pyStrip l) := by
  have hp : (pySpace ∘ f) = pySpace := funext (h.1)
  unfold pyStrip
  rw [List.dropWhile_map, hp, ← List.map_reverse, List.dropWhile_map, hp,
    ← List.map_reverse]

/-- The full normalizer commutes with a `caseMapOK` map on ASCII input. -/
theorem normalize_map {f : Nat → Nat} (h : caseMapOK f) (c : List Nat)
    (hc : asciiOnly c = true) :
    normalizeCommand (List.map f c) = List.map f (normalizeCommand c) := by
  have hcf : asciiOnly (List.map f c) = true := by
    simp only [asciiOnly, List.all_eq_true] at hc ⊢
    intro x hx
    rcases List.mem_map.mp hx with ⟨y, hy, rfl⟩
    have := hc y hy
    simp at this ⊢
    exact h.2.2.2.2.2.2.1 y this
  unfold normalizeCommand
  rw [pyNFKC_ascii _ hcf, removeZWSP_ascii _ hcf, pyNFKC_ascii _ hc,
    removeZWSP_ascii _ hc]
  show pyStrip (collapseWS (subBsSpaceAux 0 false (subEscapesAux 0
    (subContAux 0 (List.map f c))))) = _
  rw [subContAux_map h c 0, subEscAux_map h _ 0, subBsSpAux_map h _ 0 false,
    collapseWS_map h, pyStrip_map h]
  rfl

/-- `tokOr` commutes with mapping over the token. -/
theorem tokOr_map {f : Nat → Nat} (tok : Option (List Nat)) :
    tokOr (Option.map (List.map f) tok) = List.map f (tokOr tok) := by
  cases tok <;> rfl

/-- The shlex state machine commutes with a `caseMapOK` map. -/
theorem shAux_map {f : Nat → Nat} (h : caseMapOK f) (l : List Nat) :
    ∀ (mode : ShMode) (tok : Option (List Nat)),
      shAux mode (Option.map (List.map f) tok) (List.map f l) =
        Option.map (List.map (List.map f)) (shAux mode tok l) := by
  induction l with
  | nil =>
    intro mode tok
    cases mode <;> cases tok <;> simp [shAux]
  | cons c cs ih =>
    intro mode tok
    have e39 := h.2.2.2.1 c
    have e34 := h.2.2.2.2.1 c
    have e92 := h.2.2.1 c
    cases mode with
    | norm =>
      show (if shlexWS (f c) then
          match Option.map (List.map f) tok with
          | none => shAux ShMode.norm none (List.map f cs)
          | some t => (shAux ShMode.norm none (List.map f cs)).map
              (fun r => t.reverse :: r)
        else if f c = 39 then
          shAux ShMode.sq (some (tokOr (Option.map (List.map f) tok)))
            (List.map f cs)
        else if f c = 34 then
          shAux ShMode.dq (some (tokOr (Option.map (List.map f) tok)))
            (List.map f cs)
        else if f c = 92 then
          shAux ShMode.escN (some (tokOr (Option.map (List.map f) tok)))
            (List.map f cs)
        else shAux ShMode.norm
          (some (f c :: tokOr (Option.map (List.map f) tok))) (List.map f cs)) =
        Option.map (List.map (List.map f))
        (if shlexWS c then
          match tok with
          | none => shAux ShMode.norm none cs
          | some t => (shAux ShMode.norm none cs).map (fun r => t.reverse :: r)
        else if c = 39 then shAux ShMode.sq (some (tokOr tok)) cs
        else if c = 34 then shAux ShMode.dq (some (tokOr tok)) cs
        else if c = 92 then shAux ShMode.escN (some (tokOr tok)) cs
        else shAux ShMode.norm (some (c :: tokOr tok)) cs)
      rw [shlexWS_sigma h c]
      by_cases hws : shlexWS c = true
      · rw [if_pos hws, if_pos hws]
        cases tok with
        | none => exact ih ShMode.norm none
        | some t =>
          have h2 := ih ShMode.norm none
          simp only [Option.map_none'] at h2
          cases hres : shAux ShMode.norm none cs with
          | none =>
            rw [hres] at h2
            simp [hres, h2]
          | some r =>
            rw [hres] at h2
            simp [hres, h2]
      · rw [if_neg hws, if_neg hws]
        by_cases h39 : c = 39
        · rw [if_pos (e39.mpr h39), if_pos h39]
          rw [show (some (tokOr (Option.map (List.map f) tok))) =
            Option.map (List.map f) (some (tokOr tok)) by
              simp [tokOr_map]]
          exact ih ShMode.sq (some (tokOr tok))
        · rw [if_neg (fun he => h39 (e39.mp he)), if_neg h39]
          by_cases h34 : c = 34
          · rw [if_pos (e34.mpr h34), if_pos h34]
            rw [show (some (tokOr (Option.map (List.map f) tok))) =
              Option.map (List.map f) (some (tokOr tok)) by
                simp [tokOr_map]]
            exact ih ShMode.dq (some (tokOr tok))
          · rw [if_neg (fun he => h34 (e34.mp he)), if_neg h34]
            by_cases h92 : c = 92
            · rw [if_pos (e92.mpr h92), if_pos h92]
              rw [show (some (tokOr (Option.map (List.map f) tok))) =
                Option.map (List.map f) (some (tokOr tok)) by
                  simp [tokOr_map]]
              exact ih ShMode.escN (some (tokOr tok))
            · rw [if_neg (fun he => h92 (e92.mp he)), if_neg h92]
              rw [show (some (f c :: tokOr (Option.map (List.map f) tok))) =
                Option.map (List.map f) (some (c :: tokOr tok)) by
                  simp [tokOr_map]]
              exact ih ShMode.norm (some (c :: tokOr tok))
    | sq =>
      show (if f c = 39 then shAux ShMode.norm (Option.map (List.map f) tok)
          (List.map f cs)
        else shAux ShMode.sq (some (f c :: tokOr (Option.map (List.map f) tok)))
          (List.map f cs)) =
        Option.map (List.map (List.map f))
        (if c = 39 then shAux ShMode.norm tok cs
         else shAux ShMode.sq (some (c :: tokOr tok)) cs)
      by_cases h39 : c = 39
      · rw [if_pos (e39.mpr h39), if_pos h39]
        exact ih ShMode.norm tok
      · rw [if_neg (fun he => h39 (e39.mp he)), if_neg h39]
        rw [show (some (f c :: tokOr (Option.map (List.map f) tok))) =
          Option.map (List.map f) (some (c :: tokOr tok)) by
            simp [tokOr_map]]
        exact ih ShMode.sq (some (c :: tokOr tok))
    | dq =>
      show (if f c = 34 then shAux ShMode.norm (Option.map (List.map f) tok)
          (List.map f cs)
        else if f c = 92 then shAux ShMode.escD (Option.map (List.map f) tok)
          (List.map f cs)
        else shAux ShMode.dq (some (f c :: tokOr (Option.map (List.map f) tok)))
          (List.map f cs)) =
        Option.map (List.map (List.map f))
        (if c = 34 then shAux ShMode.norm tok cs
         else if c = 92 then shAux ShMode.escD tok cs
         else shAux ShMode.dq (some (c :: tokOr tok)) cs)
      by_cases h34 : c = 34
      · rw [if_pos (e34.mpr h34), if_pos h34]
        exact ih ShMode.norm tok
      · rw [if_neg (fun he => h34 (e34.mp he)), if_neg h34]
        by_cases h92 : c = 92
        · rw [if_pos (e92.mpr h92), if_pos h92]
          exact ih ShMode.escD tok
        · rw [if_neg (fun he => h92 (e92.mp he)), if_neg h92]
          rw [show (some (f c :: tokOr (Option.map (List.map f) tok))) =
            Option.map (List.map f) (some (c :: tokOr tok)) by
              simp [tokOr_map]]
          exact ih ShMode.dq (some (c :: tokOr tok))
    | escN =>
      show shAux ShMode.norm (some (f c :: tokOr (Option.map (List.map f) tok)))
          (List.map f cs) =
        Option.map (List.map (List.map f))
          (shAux ShMode.norm (some (c :: tokOr tok)) cs)
      rw [show (some (f c :: tokOr (Option.map (List.map f) tok))) =
        Option.map (List.map f) (some (c :: tokOr tok)) by
          simp [tokOr_map]]
      exact ih ShMode.norm (some (c :: tokOr tok))
    | escD =>
      have h92c : f 92 = 92 := (h.2.2.1 92).mpr rfl
      show (if f c = 34 ∨ f c = 92 then
          shAux ShMode.dq (some (f c :: tokOr (Option.map (List.map f) tok)))
            (List.map f cs)
        else shAux ShMode.dq
          (some (f c :: 92 :: tokOr (Option.map (List.map f) tok)))
          (List.map f cs)) =
        Option.map (List.map (List.map f))
        (if c = 34 ∨ c = 92 then
          shAux ShMode.dq (some (c :: tokOr tok)) cs
         else shAux ShMode.dq (some (c :: 92 :: tokOr tok)) cs)
      by_cases hcc : c = 34 ∨ c = 92
      · have hpos : f c = 34 ∨ f c = 92 := by
          rcases hcc with h2 | h2
          · exact Or.inl (e34.mpr h2)
          · exact Or.inr (e92.mpr h2)
        rw [if_pos hpos, if_pos hcc]
        rw [show (some (f c :: tokOr (Option.map (List.map f) tok))) =
          Option.map (List.map f) (some (c :: tokOr tok)) by
            simp [tokOr_map]]
        exact ih ShMode.dq (some (c :: tokOr tok))
      · have hneg : ¬(f c = 34 ∨ f c = 92) := by
          intro hor
          rcases hor with h2 | h2
          · exact hcc (Or.inl (e34.mp h2))
          · exact hcc (Or.inr (e92.mp h2))
        rw [if_neg hneg, if_neg hcc]
        rw [show (some (f c :: 92 :: tokOr (Option.map (List.map f) tok))) =
          Option.map (List.map f) (some (c :: 92 :: tokOr tok)) by
            simp [tokOr_map, h92c]]
        exact ih ShMode.dq (some (c :: 92 :: tokOr tok))

/-- `shlex.split` commutes with a `caseMapOK` map. -/
theorem shlexSplit_map {f : Nat → Nat} (h : caseMapOK f) (l : List Nat) :
    shlexSplit (List.map f l) =
      Option.map (List.map (List.map f)) (shlexSplit l) := by
  have := shAux_map h l ShMode.norm none
  simpa [shlexSplit] using this

/-- `str.split` commutes with a `caseMapOK` map. -/
theorem pySplitAux_map {f : Nat → Nat} (h : caseMapOK f) (l : List Nat) :
    ∀ cur : List Nat, pySplitAux (List.map f cur) (List.map f l) =
      List.map (List.map f) (pySplitAux cur l) := by
  induction l with
  | nil =>
    intro cur
    show (if (List.map f cur).isEmpty then []
      else [(List.map f cur).reverse]) =
      List.map (List.map f) (if cur.isEmpty then [] else [cur.reverse])
    cases cur <;> simp
  | cons c cs ih =>
    intro cur
    show (if pySpace (f c) then
        if (List.map f cur).isEmpty then pySplitAux [] (List.map f cs)
        else (List.map f cur).reverse :: pySplitAux [] (List.map f cs)
      else pySplitAux (f c :: List.map f cur) (List.map f cs)) =
      List.map (List.map f) (if pySpace c then
        if cur.isEmpty then pySplitAux [] cs
        else cur.reverse :: pySplitAux [] cs
      else pySplitAux (c :: cur) cs)
    rw [h.1 c]
    by_cases hsp : pySpace c = true
    · rw [if_pos hsp, if_pos hsp]
      cases cur with
      | nil => exact ih []
      | cons a as =>
        simp only [List.map_cons, List.isEmpty_cons, if_neg Bool.false_ne_true]
        rw [show pySplitAux ([] : List Nat) (List.map f cs) =
          pySplitAux (List.map f []) (List.map f cs) from rfl, ih []]
        simp
    · rw [if_neg hsp, if_neg hsp]
      exact ih (c :: cur)

/-- `tokensOf` commutes with a `caseMapOK` map. -/
theorem tokensOf_map {f : Nat → Nat} (h : caseMapOK f) (l : List Nat) :
    tokensOf (List.map f l) = List.map (List.map f) (tokensOf l) := by
  unfold tokensOf
  rw [shlexSplit_map h l]
  cases shlexSplit l with
  | none =>
    simp only [Option.map_none]
    exact pySplitAux_map h l []
  | some toks => simp

/-- `basenameOf` commutes with a map reflecting the slash. -/
theorem basenameOf_map {f : Nat → Nat} (h : caseMapOK f) (t : List Nat) :
    basenameOf (List.map f t) = List.map f (basenameOf t) := by
  unfold basenameOf
  have hp : ((fun c : Nat => decide (c ≠ 47)) ∘ f) =
      (fun c : Nat => decide (c ≠ 47)) := by
    funext c
    simp only [Function.comp]
    rw [decide_eq_decide]
    have h47 := h.2.2.2.2.2.1 c
    constructor
    · intro hne he
      exact hne (h47.mpr he)
    · intro hne he
      exact hne (h47.mp he)
  rw [← List.map_reverse, List.takeWhile_map, hp, ← List.map_reverse]

/-- Lowering after a `caseMapOK` map is plain lowering. -/
theorem pyLower_map_sigma {f : Nat → Nat} (h : caseMapOK f) (l : List Nat) :
    pyLower (List.map f l) = pyLower l := by
  unfold pyLower
  rw [List.map_map]
  exact List.map_congr_left (fun a _ => h.2.2.2.2.2.2.2 a)

/-- `isEmpty` ignores `map`. -/
theorem isEmpty_map (f : Nat → Nat) (x : List Nat) :
    (List.map f x).isEmpty = x.isEmpty := by
  cases x <;> rfl

/-- The lowered first token ignores a `caseMapOK` map. -/
theorem firstTokenLower_map {f : Nat → Nat} (h : caseMapOK f) (n : List Nat) :
    firstTokenLower (List.map f n) = firstTokenLower n := by
  unfold firstTokenLower
  rw [tokensOf_map h]
  cases tokensOf n with
  | nil => rfl
  | cons t ts =>
    simp only [List.map_cons]
    exact pyLower_map_sigma h t

/-- The allow-list entry match ignores a `caseMapOK` map on the command. -/
theorem entryMatch_map {f : Nat → Nat} (h : caseMapOK f) (n e : List Nat) :
    allowedEntryMatch (List.map f n) e = allowedEntryMatch n e := by
  unfold allowedEntryMatch
  rw [pyStrip_map h, pyLower_map_sigma h, firstTokenLower_map h]

/-- The lockdown gate ignores a `caseMapOK` map on the command. -/
theorem isAllowed_map_sigma {f : Nat → Nat} (h : caseMapOK f)
    (cfg : HardKillConfig) (n : List Nat) :
    isAllowedInLockdown cfg (List.map f n) = isAllowedInLockdown cfg n := by
  unfold isAllowedInLockdown
  rw [show allowedEntryMatch (List.map f n) = allowedEntryMatch n from
    funext (entryMatch_map h n)]

/-- The blocked-tool scan ignores a `caseMapOK` map on the command. -/
theorem matchBlockedTool_map {f : Nat → Nat} (h : caseMapOK f)
    (cfg : HardKillConfig) (n : List Nat) :
    matchBlockedTool cfg (List.map f n) = matchBlockedTool cfg n := by
  unfold matchBlockedTool
  rw [tokensOf_map h, List.findSome?_map]
  congr 1
  funext token
  simp only [Function.comp]
  rw [pyStrip_map h, pyLower_map_sigma h]

/-- With the network gate silent, the hard-kill filter ignores a
`caseMapOK` map on the normalized command. -/
theorem hardKill_map_sigma {f : Nat → Nat} (h : caseMapOK f)
    (cfg : HardKillConfig) (n : List Nat)
    (hnet : containsNetworkTool cfg (pyLower n) = false) :
    hardKillFilter cfg (List.map f n) = hardKillFilter cfg n := by
  unfold hardKillFilter
  rw [pyStrip_map h, isEmpty_map, isAllowed_map_sigma h,
    pyLower_map_sigma h, matchBlockedTool_map h, hnet,
    if_neg Bool.false_ne_true, if_neg Bool.false_ne_true]

/-- Claim C5 amended: case invariance holds away from the network gate.
For an ASCII command whose lowered normalized uppercase form contains no
blocked network tool, auditing the uppercased and the lowercased command
yields identical decisions (Python `str.upper`/`str.lower` act
code-point-wise on ASCII, which is how they are modelled here).  The
network gate itself is genuinely case-sensitive, as the counterexample
shows. -/
theorem claim_C5_amended :
    ∀ (cfg : HardKillConfig) (c : List Nat),
      asciiOnly c = true →
      containsNetworkTool cfg (pyLower (normalizeCommand (pyUpper c))) = false →
      auditE cfg (pyUpper c) = auditE cfg (pyLower c) := by
  intro cfg c hA hnet
  have hU : normalizeCommand (pyUpper c) =
      List.map upperChar (normalizeCommand c) :=
    normalize_map caseMapOK_upper c hA
  have hL : normalizeCommand (pyLower c) =
      List.map lowerChar (normalizeCommand c) :=
    normalize_map caseMapOK_lower c hA
  have hnet' : containsNetworkTool cfg (pyLower (normalizeCommand c)) =
      false := by
    rw [hU, pyLower_map_sigma caseMapOK_upper] at hnet
    exact hnet
  unfold auditE auditWith
  rw [hU, hL, hardKill_map_sigma caseMapOK_upper cfg _ hnet',
    hardKill_map_sigma caseMapOK_lower cfg _ hnet',
    isAllowed_map_sigma caseMapOK_upper, isAllowed_map_sigma caseMapOK_lower]

/-- Claim C5 amended witness: uppercasing `echo Hi-7` does not change the
decision under the default policy. -/
theorem claim_C5_amended_witness :
    auditE defaultConfig (pyUpper (pyChars ("echo Hi-7"))) =
      auditE defaultConfig (pyLower (pyChars ("echo Hi-7"))) :=
  claim_C5_amended defaultConfig (pyChars ("echo Hi-7")) (by decide) (by decide)

/-! ### Claim theorems -/

/-- Claim C1: the claim states that with `lockdown_mode=false` the
allow-list is never consulted and `audit` never returns the acceptance
`Command explicitly allowed by policy.`.  The code violates this:
`audit` calls `_is_allowed_in_lockdown` unconditionally, so with lockdown
disabled, an allow-listed command `ls` is accepted with that very reason
instead of hitting the fail-closed LLM rejection. -/
theorem claim_C1_allowlist_without_lockdown :
    loadConfig c1Constitution = some cfgC1 ∧
    cfgC1.lockdown_mode = false ∧
    auditE cfgC1 (pyChars ("ls")) =
      Except.ok (AuditDecision.mk true 0
        (pyChars ("Command explicitly allowed by policy."))) :=
  by refine ⟨?_, ?_, ?_⟩ <;> decide

/-- Claim C2: the claim states that `audit` never raises and that
`curl http://[::1` yields the rejection `Could not parse domain from
network target: ...`.  The code violates this: `urlparse` raises
`ValueError("Invalid IPv6 URL")` on the unmatched bracket before the
hostname check runs, and no handler catches it, so `audit` propagates an
exception (modelled as `Except.error`). -/
theorem claim_C2_uncaught_valueerror :
    loadConfig (PyVal.vDict []) = some defaultConfig ∧
    auditE defaultConfig (pyChars ("curl http://[::1")) = Except.error () :=
  by refine ⟨?_, ?_⟩ <;> decide

/-- Claim C3: the claim states that with a token configured, tokenless
`POST /audit` / `POST /audit-only` requests receive 401.  The server source
contains no authentication code at all: both handlers return 200 whenever
the runtime is initialized, for every header and configured token, so a
tokenless request is processed rather than rejected (its own test suite
asserts the 401).  `GET /health` does return 200 without a token, as
claimed. -/
theorem claim_C3_missing_auth :
    (∀ (r : Bool) (t : Option (List Nat)) (req : SentinelRequest),
      auditEndpointStatus r t req = if r then 200 else 503) ∧
    (∀ (r : Bool) (t : Option (List Nat)) (req : SentinelRequest),
      auditOnlyEndpointStatus r t req = if r then 200 else 503) ∧
    healthEndpointStatus = 200 ∧
    auditEndpointStatus true (some (pyChars ("test-token")))
      (SentinelRequest.mk none (pyChars ("echo test"))) = 200 :=
  ⟨fun _ _ _ => rfl, fun _ _ _ => rfl, rfl, rfl⟩

/-- Claim C5 counterexample: uppercasing changes the decision.  With
`a.com` whitelisted and `curl` allow-listed, the lowercase command is
accepted while its uppercase form is rejected: URL extraction matches
`http://`/`https://` prefixes and the regex `https?://` case-sensitively,
so the uppercase command loses its URL and dies at the network gate. -/
theorem claim_C5_counterexample :
    loadConfig c5Constitution = some cfgC5 ∧
    auditE cfgC5 (pyUpper (pyChars ("curl https://a.com"))) =
      Except.ok (AuditDecision.reject
        (pyChars ("Network command without explicit URL/domain is rejected.")) 10) ∧
    auditE cfgC5 (pyLower (pyChars ("curl https://a.com"))) =
      Except.ok (AuditDecision.mk true 0
        (pyChars ("Command explicitly allowed by policy."))) :=
  by refine ⟨?_, ?_, ?_⟩ <;> decide

/-- Claim C6 counterexample: a network command whose unterminated quote
breaks the POSIX tokenizer is rejected for lacking a URL even though the
raw regex scan finds one — `_extract_urls` returns the empty list as soon
as `shlex` raises, without the whitespace-split fallback or the regex scan
the claim describes. -/
theorem claim_C6_counterexample :
    shlexSplit (pyChars ("curl \"https://api.example.com")) = none ∧
    regexFindUrls (pyChars ("curl \"https://api.example.com")) =
      [pyChars ("https://api.example.com")] ∧
    auditE cfgC6 (pyChars ("curl \"https://api.example.com")) =
      Except.ok (AuditDecision.reject
        (pyChars ("Network command without explicit URL/domain is rejected.")) 10) :=
  by refine ⟨?_, ?_, ?_⟩ <;> decide

/-- Claim C7 counterexample: the code's separator regex is
`(?:\||&&|;)`, not the claimed character class `[|&;]`: a single `&` is
not a separator, so `base64 -d f.b64 & sh` does not trigger the
base64-to-shell rule and instead falls through to the fail-closed LLM
rejection (risk 9, different reason). -/
theorem claim_C7_counterexample :
    containsBase64ShellExec
      (pyLower (normalizeCommand (pyChars ("base64 -d f.b64 & sh")))) = false ∧
    auditE defaultConfig (pyChars ("base64 -d f.b64 & sh")) =
      Except.ok (AuditDecision.reject
        (pyChars ("LLM auditor unavailable; fail-closed policy applied.")) 9) :=
  by refine ⟨?_, ?_⟩ <;> decide

/-- Claim C8 counterexample: normalization is not idempotent.  For
`e`, U+200B, U+0301: the first pass removes the zero-width space that was
blocking canonical composition, and the second pass's NFKC then composes
`e` + U+0301 into U+00E9, changing the string. -/
theorem claim_C8_counterexample :
    normalizeCommand [101, 0x200b, 0x301] = [101, 0x301] ∧
    normalizeCommand (normalizeCommand [101, 0x200b, 0x301]) = [0xe9] ∧
    (normalizeCommand (normalizeCommand [101, 0x200b, 0x301]) ==
      normalizeCommand [101, 0x200b, 0x301]) = false :=
  by refine ⟨?_, ?_, ?_⟩ <;> decide

/-- Claim C9 counterexample: a flat top-level `lockdown_mode` key is not
ignored — `_load_config` reads it as a fallback when
`execution_mode.lockdown_mode` is absent. -/
theorem claim_C9_counterexample :
    loadConfig (PyVal.vDict [(pyChars ("lockdown_mode"), PyVal.vBool true)]) =
      some { defaultConfig with lockdown_mode := true } ∧
    defaultConfig.lockdown_mode = false :=
  by refine ⟨?_, ?_⟩ <;> decide

/-- Claim C4: the allow-list acceptance is applied only after the full
hard-kill sweep.  For any configuration in lockdown whose allow-list
matches the normalized command: when any hard-kill rule fires, `audit`
returns that rule's rejection; the acceptance
`Command explicitly allowed by policy.` (allowed, risk 0) is returned
exactly when the filter declines. -/
theorem claim_C4_allowlist_after_hardkill :
    ∀ (cfg : HardKillConfig) (llm : Option (List Nat → AuditDecision))
      (c : List Nat),
      cfg.lockdown_mode = true →
      isAllowedInLockdown cfg (normalizeCommand c) = true →
      ((∀ d : AuditDecision,
          hardKillFilter cfg (normalizeCommand c) = Except.ok (some d) →
          auditWith cfg llm c = Except.ok d ∧ d.allowed = false) ∧
       (hardKillFilter cfg (normalizeCommand c) = Except.ok none →
          auditWith cfg llm c = Except.ok (AuditDecision.mk true 0
            (pyChars ("Command explicitly allowed by policy."))))) := by
  intro cfg llm c hlock hallow
  constructor
  · intro d hd
    constructor
    · unfold auditWith
      rw [hd]
    · exact hardKill_reject cfg _ d hd
  · intro hnone
    unfold auditWith
    rw [hnone, hallow]
    rfl

/-- Claim C4 witness: a lockdown configuration allow-listing `ls` still
rejects `ls /etc/x` with the blocked-path reason. -/
theorem claim_C4_witness :
    auditWith cfgC4 none (pyChars ("ls /etc/x")) =
      Except.ok (AuditDecision.reject
        (pyChars ("Blocked path access detected: /etc/")) 10) ∧
    (AuditDecision.reject
      (pyChars ("Blocked path access detected: /etc/")) 10).allowed = false :=
  (claim_C4_allowlist_after_hardkill cfgC4 none (pyChars ("ls /etc/x"))
    (by decide) (by decide)).1 _ (by decide)

/-- A blank allow-list entry matches nothing inside the entry loop, so
filtering blank entries away never changes the result of the `any` fold. -/
theorem anyAllowed_filter (c : List Nat) (L : List (List Nat)) :
    (L.filter (fun e => !(pyLower (normalizeCommand e)).isEmpty)).any
        (allowedEntryMatch c) =
      L.any (allowedEntryMatch c) := by
  induction L with
  | nil => rfl
  | cons e t ih =>
    by_cases he : (pyLower (normalizeCommand e)).isEmpty = true
    · rw [List.filter_cons, if_neg (by simp [he]), ih, List.any_cons]
      have hm : allowedEntryMatch c e = false := by
        unfold allowedEntryMatch
        rw [if_pos he]
      rw [hm]
      simp
    · rw [List.filter_cons,
        if_pos (by simp only [Bool.not_eq_true] at he; simp [he]),
        List.any_cons, List.any_cons, ih]

/-- All-blank allow-lists admit nothing. -/
theorem anyAllowed_blank (c : List Nat) (L : List (List Nat))
    (hL : L.all (fun e => (pyLower (normalizeCommand e)).isEmpty) = true) :
    L.any (allowedEntryMatch c) = false := by
  induction L with
  | nil => rfl
  | cons e t ih =>
    rw [List.all_cons] at hL
    have h1 := (Bool.and_eq_true _ _).mp hL
    have hm : allowedEntryMatch c e = false := by
      unfold allowedEntryMatch
      rw [if_pos h1.1]
    rw [List.any_cons, hm, ih h1.2]
    rfl

/-- Removing blank allow-list entries does not change the lockdown gate. -/
theorem isAllowed_dropBlank (cfg : HardKillConfig) (c : List Nat) :
    isAllowedInLockdown (dropBlankAllowed cfg) c =
      isAllowedInLockdown cfg c := by
  unfold isAllowedInLockdown dropBlankAllowed
  simp only []
  cases hL : cfg.allowed_commands with
  | nil => rfl
  | cons e t =>
    by_cases h1 : (List.filter (fun x => !(pyLower (normalizeCommand x)).isEmpty)
        (e :: t)).isEmpty = true
    · rw [if_pos h1, if_neg (by simp)]
      have hall : (e :: t).all
          (fun x => (pyLower (normalizeCommand x)).isEmpty) = true := by
        rw [List.isEmpty_iff, List.filter_eq_nil_iff] at h1
        rw [List.all_eq_true]
        intro x hmem
        have hx := h1 x hmem
        simpa using hx
      rw [anyAllowed_blank c (e :: t) hall]
    · rw [if_neg h1, if_neg (by simp)]
      exact anyAllowed_filter c (e :: t)

/-- The network-gate loop depends on the configuration only through the
domain whitelist. -/
theorem netLoop_congr (cfg cfg' : HardKillConfig)
    (hw : cfg'.whitelisted_domains = cfg.whitelisted_domains) :
    ∀ urls : List (List Nat), netLoop cfg' urls = netLoop cfg urls := by
  intro urls
  induction urls with
  | nil => rfl
  | cons u rest ih =>
    unfold netLoop
    have hwl : ∀ dom, isWhitelistedDomain cfg' dom =
        isWhitelistedDomain cfg dom := by
      intro dom
      unfold isWhitelistedDomain
      rw [hw]
    cases extractDomain u with
    | error e => rfl
    | ok o =>
      cases o with
      | none => rfl
      | some dom =>
        simp only [hwl, ih]

/-- Claim C10: an allow-list entry whose normalized form is empty admits
nothing: removing all such entries never changes any audit outcome, and a
configuration whose entries are all blank (whitespace-only or
zero-width-only) admits no command through the lockdown gate. -/
theorem claim_C10_blank_allowlist :
    ∀ (cfg : HardKillConfig) (c : List Nat),
      auditE (dropBlankAllowed cfg) c = auditE cfg c ∧
      (cfg.allowed_commands.all
          (fun e => (pyLower (normalizeCommand e)).isEmpty) = true →
        isAllowedInLockdown cfg (normalizeCommand c) = false) := by
  intro cfg c
  constructor
  · unfold auditE auditWith
    have hhk : hardKillFilter (dropBlankAllowed cfg) (normalizeCommand c) =
        hardKillFilter cfg (normalizeCommand c) := by
      unfold hardKillFilter
      rw [isAllowed_dropBlank]
      simp only [netLoop_congr cfg (dropBlankAllowed cfg) rfl]
      rfl
    rw [hhk, isAllowed_dropBlank]
  · intro hall
    unfold isAllowedInLockdown
    cases hL : cfg.allowed_commands with
    | nil => rfl
    | cons e t =>
      rw [if_neg (by simp)]
      exact anyAllowed_blank _ _ (hL ▸ hall)

/-- Claim C10 witness: with the blank allow-list `[" ", U+200B]`, dropping
the blanks changes nothing and `ls` is not admitted. -/
theorem claim_C10_witness :
    auditE (dropBlankAllowed cfgC10) (pyChars ("ls")) =
      auditE cfgC10 (pyChars ("ls")) ∧
    isAllowedInLockdown cfgC10 (normalizeCommand (pyChars ("ls"))) = false :=
  ⟨(claim_C10_blank_allowlist cfgC10 (pyChars ("ls"))).1,
   (claim_C10_blank_allowlist cfgC10 (pyChars ("ls"))).2 (by decide)⟩

/-- Claim C6 amended: URL extraction has no whitespace-split or regex
fallback when POSIX tokenization fails — `_extract_urls` then returns no
URLs at all, and the regex scan runs only when tokenization succeeds with
no `http(s)://` token; consequently a network command whose quoting breaks
the tokenizer is rejected with `Network command without explicit
URL/domain is rejected.` even when the raw regex would find a URL. -/
theorem claim_C6_amended :
    (∀ l : List Nat, shlexSplit l = none → extractUrls l = []) ∧
    (∀ (l : List Nat) (toks : List (List Nat)), shlexSplit l = some toks →
      toks.filter startsHttp = [] → extractUrls l = regexFindUrls l) ∧
    (∀ (cfg : HardKillConfig) (c : List Nat),
      (pyStrip (normalizeCommand c)).isEmpty = false →
      (cfg.lockdown_mode && !isAllowedInLockdown cfg (normalizeCommand c))
        = false →
      blockedStringHit cfg (pyLower (normalizeCommand c)) = none →
      blockedPathHit cfg (pyLower (normalizeCommand c)) = none →
      matchBlockedTool cfg (normalizeCommand c) = none →
      containsBase64ShellExec (pyLower (normalizeCommand c)) = false →
      containsNetworkTool cfg (pyLower (normalizeCommand c)) = true →
      shlexSplit (normalizeCommand c) = none →
      auditE cfg c = Except.ok (AuditDecision.reject
        (pyChars ("Network command without explicit URL/domain is rejected."))
        10)) := by
  refine ⟨?_, ?_, ?_⟩
  · intro l h
    unfold extractUrls
    rw [h]
  · intro l toks h hf
    unfold extractUrls
    rw [h]
    simp [hf]
  · intro cfg c h1 h2 h3 h4 h5 h6 h7 h8
    have hurl : extractUrls (normalizeCommand c) = [] := by
      unfold extractUrls
      rw [h8]
    unfold auditE auditWith
    have hhk : hardKillFilter cfg (normalizeCommand c) =
        Except.ok (some (AuditDecision.reject
          (pyChars ("Network command without explicit URL/domain is rejected."))
          10)) := by
      unfold hardKillFilter
      rw [h3, h4, h5]
      simp [h1, h2, h6, h7, hurl]
    rw [hhk]

/-- Claim C6 amended witness: the unterminated-quote command under the
`api.example.com` network policy is rejected for lacking a URL. -/
theorem claim_C6_witness :
    auditE cfgC6 (pyChars ("curl \"https://api.example.com")) =
      Except.ok (AuditDecision.reject
        (pyChars ("Network command without explicit URL/domain is rejected."))
        10) :=
  claim_C6_amended.2.2 cfgC6 (pyChars ("curl \"https://api.example.com"))
    (by decide) (by decide) (by decide) (by decide) (by decide) (by decide)
    (by decide) (by decide)

/-- Claim C7 amended: the base64-to-shell rule fires exactly when the
lowered normalized command contains `base64 -d` or `base64 --decode` and
matches `(?:\||&&|;)\s*(?:bash|sh)\b` — a pipe, a double ampersand or a
semicolon as separator.  A single `&` is not a separator, so
`base64 -d f.b64 & sh` does not fire, while `base64 -d f.b64 && sh` is
rejected with the base64-to-shell reason at risk 10. -/
theorem claim_C7_amended :
    sepShell (pyChars ("base64 -d f.b64 & sh")) = false ∧
    sepShell (pyChars ("base64 -d f.b64 && sh")) = true ∧
    (∀ (cfg : HardKillConfig) (c : List Nat),
      (pyStrip (normalizeCommand c)).isEmpty = false →
      (cfg.lockdown_mode && !isAllowedInLockdown cfg (normalizeCommand c))
        = false →
      blockedStringHit cfg (pyLower (normalizeCommand c)) = none →
      blockedPathHit cfg (pyLower (normalizeCommand c)) = none →
      matchBlockedTool cfg (normalizeCommand c) = none →
      containsBase64ShellExec (pyLower (normalizeCommand c)) = true →
      auditE cfg c = Except.ok (AuditDecision.reject
        (pyChars
          ("Obfuscated payload execution pattern detected: base64 to shell."))
        10)) := by
  refine ⟨by decide, by decide, ?_⟩
  intro cfg c h1 h2 h3 h4 h5 h6
  unfold auditE auditWith
  have hhk : hardKillFilter cfg (normalizeCommand c) =
      Except.ok (some (AuditDecision.reject
        (pyChars
          ("Obfuscated payload execution pattern detected: base64 to shell."))
        10)) := by
    unfold hardKillFilter
    rw [h3, h4, h5]
    simp [h1, h2, h6]
  rw [hhk]

/-- Claim C7 amended witness: `base64 -d f.b64 && sh` under the default
policy is rejected with the base64-to-shell reason. -/
theorem claim_C7_witness :
    auditE defaultConfig (pyChars ("base64 -d f.b64 && sh")) =
      Except.ok (AuditDecision.reject
        (pyChars
          ("Obfuscated payload execution pattern detected: base64 to shell."))
        10) :=
  claim_C7_amended.2.2 defaultConfig (pyChars ("base64 -d f.b64 && sh"))
    (by decide) (by decide) (by decide) (by decide) (by decide) (by decide)

/-- Claim C9 amended: `_load_config` reads the nested `execution_mode` and
`network_lock` keys, but `lockdown_mode`, `allowed_commands` and
`whitelisted_domains` also have flat top-level fallbacks consulted when
the nested key is absent (the nested value takes precedence).  All other
unknown top-level keys are ignored, absent keys yield the documented
defaults, and a scalar string where a sequence is expected is read as a
one-element sequence. -/
theorem claim_C9_amended :
    loadConfig (PyVal.vDict []) = some defaultConfig ∧
    (∀ (k : List Nat) (v : PyVal) (d : List (List Nat × PyVal)),
      k ∉ recognizedTopKeys →
      loadConfig (PyVal.vDict ((k, v) :: d)) = loadConfig (PyVal.vDict d)) ∧
    (∀ s : List Nat,
      loadConfig (PyVal.vDict [(pyChars ("execution_mode"),
        PyVal.vDict [(pyChars ("allowed_commands"), PyVal.vStr s)])]) =
      some { defaultConfig with allowed_commands := [s] }) ∧
    (∀ b1 b2 : Bool,
      loadConfig (PyVal.vDict [(pyChars ("execution_mode"),
        PyVal.vDict [(pyChars ("lockdown_mode"), PyVal.vBool b1)]),
        (pyChars ("lockdown_mode"), PyVal.vBool b2)]) =
      some { defaultConfig with lockdown_mode := b1 }) ∧
    (∀ b : Bool,
      loadConfig (PyVal.vDict [(pyChars ("lockdown_mode"), PyVal.vBool b)]) =
      some { defaultConfig with lockdown_mode := b }) := by
  refine ⟨by decide, ?_, ?_, ?_, ?_⟩
  · intro k v d hk
    simp only [recognizedTopKeys, List.mem_cons, List.not_mem_nil, or_false,
      not_or] at hk
    obtain ⟨h1, h2, h3, h4, h5, h6⟩ := hk
    simp [loadConfig, dGet, dGetChain, h1, h2, h3, h4, h5, h6]
  · intro s
    rfl
  · intro b1 b2
    rfl
  · intro b
    rfl

/-- Claim C9 amended witness: a genuinely unknown top-level key is
ignored. -/
theorem claim_C9_witness :
    loadConfig (PyVal.vDict [(pyChars ("unknown_key"), PyVal.vBool true)]) =
      loadConfig (PyVal.vDict []) :=
  claim_C9_amended.2.1 (pyChars ("unknown_key")) (PyVal.vBool true) []
    (by decide)

end Sentinel

